import Mathlib

/-!
# Sniffer: aggregation cache, log rotation, flush and summary

A shallow embedding of `src/main.go`.

Conventions of the embedding.

* Go `int` is the 64-bit two's-complement integer type: values are `Int`s in
  `[minInt, maxInt]` and `+=` reduces its result with `wrapInt`.
* `time.Time` values are given by their civil fields in the local zone, which is
  all that `Format` reads; `time.Now()` is an explicit argument `now`.
* A Go `string` is the sequence of its characters (valid UTF-8).  A file is the
  sequence of its characters, the file system a map from path to file content.  `csv.Writer` and `csv.Reader` are modelled on characters, with
  their default settings.  A `*csv.Writer` is the path of the file it appends to
  (`none` is the nil writer); every `Write` in the source is followed by
  `Flush`, so a written record is in the file at once.  File operations do not
  fail.
* A Go `map` is an association list, iterated in list order; the program leaves
  the order open, and where rows are listed below they follow the list.
-/

namespace Sniffer

set_option maxRecDepth 20000

/-! ## Go `int` -/

/-- Largest value of Go's `int` (64 bit). -/
def maxInt : Int := 9223372036854775807

/-- Smallest value of Go's `int` (64 bit). -/
def minInt : Int := -9223372036854775808

/-- The integer is a value of Go's `int`. -/
def IsInt (z : Int) : Prop := minInt ≤ z ∧ z ≤ maxInt

instance (z : Int) : Decidable (IsInt z) := by
  unfold IsInt
  infer_instance

/-- Two's-complement reduction of an exact result to Go's `int`: what `+` and
`+=` on `int` operands yield. -/
def wrapInt (z : Int) : Int :=
  (z + 9223372036854775808) % 18446744073709551616 - 9223372036854775808

/-! ## `strconv` -/

/-- The ASCII digit of `d < 10`. -/
def digitChar (d : Nat) : Char := Char.ofNat (48 + d)

/-- The digit loop of `strconv.formatBits` in base 10: digits are produced from
the least significant one and put in front of `acc`. -/
def formatBits : Nat → Nat → List Char → List Char
  | 0, _, acc => acc
  | fuel + 1, u, acc =>
    if u < 10 then digitChar u :: acc
    else formatBits fuel (u / 10) (digitChar (u % 10) :: acc)

/-- Decimal digits of a natural number, most significant first. -/
def decimal (u : Nat) : List Char := formatBits (u + 1) u []

/-- Go's `strconv.Itoa`. -/
def Itoa (i : Int) : String :=
  if i < 0 then String.mk ('-' :: decimal i.natAbs) else String.mk (decimal i.natAbs)

/-- The `Err` of a `*strconv.NumError`, or no error. -/
inductive NumError where
  | ok
  | invalid
  | range
  deriving DecidableEq, Repr

/-- Largest `uint64`. -/
def maxUint64 : Nat := 18446744073709551615

/-- The `cutoff` of `strconv.ParseUint` in base 10: `maxUint64/10 + 1`. -/
def cutoff10 : Nat := 1844674407370955162

/-- Byte test `'0' <= c && c <= '9'`. -/
def isDigit (c : Char) : Bool := decide (48 ≤ c.toNat) && decide (c.toNat ≤ 57)

/-- Value `c - '0'` of a digit. -/
def digitVal (c : Char) : Nat := c.toNat - 48

/-- The loop of `strconv.ParseUint(s, 10, 64)` with accumulator `n`: a byte that
is no digit is a format error with value 0, an overflow is a range error with
value `maxUint64`, reported before the rest of the input is looked at. -/
def parseUintLoop : List Char → Nat → Nat × NumError
  | [], n => (n, NumError.ok)
  | c :: cs, n =>
    if isDigit c = false then (0, NumError.invalid)
    else if cutoff10 ≤ n then (maxUint64, NumError.range)
    else if maxUint64 < n * 10 + digitVal c then (maxUint64, NumError.range)
    else parseUintLoop cs (n * 10 + digitVal c)

/-- Go's `strconv.ParseUint(s, 10, 64)`. -/
def ParseUint (s : List Char) : Nat × NumError :=
  match s with
  | [] => (0, NumError.invalid)
  | _ :: _ => parseUintLoop s 0

/-- Go's `strconv.ParseInt(s, 10, 0)`: an optional sign, then `ParseUint`; a
range error yields the bound of `int` with the sign of the input. -/
def ParseInt (s : List Char) : Int × NumError :=
  match s with
  | [] => (0, NumError.invalid)
  | c :: rest =>
    let neg : Bool := decide (c = '-')
    let body : List Char := if c = '+' ∨ c = '-' then rest else c :: rest
    match ParseUint body with
    | (_, NumError.invalid) => (0, NumError.invalid)
    | (un, _) =>
      if neg = false ∧ 9223372036854775808 ≤ un then (maxInt, NumError.range)
      else if neg = true ∧ 9223372036854775808 < un then (minInt, NumError.range)
      else (if neg = true then -(un : Int) else (un : Int), NumError.ok)

/-- Go's `strconv.Atoi`: value and error (its fast path for short inputs
computes the same result as `ParseInt`). -/
def Atoi (s : String) : Int × NumError := ParseInt s.data

/-! ## `time` -/

/-- Civil reading of a `time.Time` in the local zone. -/
structure Time where
  year : Int
  month : Fin 13
  day : Fin 32
  hour : Fin 24
  minute : Fin 60
  second : Fin 60
  deriving DecidableEq

/-- The `appendInt` of package `time`: sign, then the decimal digits padded with
zeros to at least `width` digits. -/
def appendInt (x : Int) (width : Nat) : List Char :=
  (if x < 0 then ['-'] else []) ++
    (List.replicate (width - (decimal x.natAbs).length) '0' ++ decimal x.natAbs)

/-- Characters of `t.Format("2006-01-02-15")`. -/
def minuteChars (t : Time) : List Char :=
  appendInt t.year 4 ++ '-' :: (appendInt t.month.val 2 ++ '-' ::
    (appendInt t.day.val 2 ++ '-' :: appendInt t.hour.val 2))

/-- The bucket label `metadata.Timestamp.Format("2006-01-02-15")`. -/
def formatMinute (t : Time) : String := String.mk (minuteChars t)

/-- The row timestamp `t.Format("2006/01/02 15:04:05")`. -/
def formatTimestamp (t : Time) : String :=
  String.mk (appendInt t.year 4 ++ '/' :: (appendInt t.month.val 2 ++ '/' ::
    (appendInt t.day.val 2 ++ ' ' :: (appendInt t.hour.val 2 ++ ':' ::
      (appendInt t.minute.val 2 ++ ':' :: appendInt t.second.val 2)))))

/-! ## Files and `encoding/csv` -/

/-- One CSV record. -/
abbrev Row := List String

/-- File system: the characters of each existing file. -/
abbrev FS := String → Option (List Char)

/-- The call `os.OpenFile(path, O_APPEND|O_CREATE|O_WRONLY, 0644)`: the file
exists afterwards, an existing one keeps its content. -/
def openAppend (fs : FS) (path : String) : FS :=
  fun p => if p = path then some ((fs p).getD []) else fs p

/-- Go's `unicode.IsSpace`. -/
def isSpace (c : Char) : Bool :=
  decide (c.toNat ∈ [9, 10, 11, 12, 13, 32, 133, 160, 5760, 8232, 8233, 8239, 8287, 12288])
    || (decide (8192 ≤ c.toNat) && decide (c.toNat ≤ 8202))

/-- The test `fieldNeedsQuotes` of `csv.Writer` with `Comma = ','`. -/
def fieldNeedsQuotes (field : List Char) : Bool :=
  match field with
  | [] => false
  | r1 :: _ =>
    if field = [Char.ofNat 92, '.'] then true
    else if field.any (fun c => decide (c = '\n' ∨ c = '\r' ∨ c = '"' ∨ c = ',')) = true then true
    else isSpace r1

/-- The inside of a quoted field as `csv.Writer` writes it with `UseCRLF` off:
every quote doubled, every other character as it is. -/
def quoteBody : List Char → List Char
  | [] => []
  | c :: rest => if c = '"' then '"' :: '"' :: quoteBody rest else c :: quoteBody rest

/-- One field as `csv.Writer.Write` writes it. -/
def writeField (field : String) : List Char :=
  if fieldNeedsQuotes field.data = true then '"' :: (quoteBody field.data ++ ['"'])
  else field.data

/-- The fields of a record with a comma before every field but the first. -/
def writeFields : List String → List Char
  | [] => []
  | [field] => writeField field
  | field :: rest => writeField field ++ ',' :: writeFields rest

/-- What `csv.Writer.Write(record)` writes: the fields, then a line feed. -/
def csvLine (record : Row) : List Char := writeFields record ++ ['\n']

/-- What `csv.Writer.Write` writes for a sequence of records. -/
def csvLines : List Row → List Char
  | [] => []
  | record :: rest => csvLine record ++ csvLines rest

/-- The input as the lines of `csv.Reader.readLine` present it: a carriage
return before a line feed is removed, and so is one that ends the input. -/
def readLines : List Char → List Char
  | [] => []
  | c :: rest =>
    if c = '\r' ∧ (rest = [] ∨ rest.head? = some '\n') then readLines rest
    else c :: readLines rest

/-- Where `csv.Reader.readRecord` stands in its input. -/
inductive ReadState where
  | fieldStart
  | unquoted
  | quoted
  | quoteSeen

/-- The field and record parsing of `csv.Reader.readRecord` (no comment
character, no lazy quotes, leading space kept), run over the lines of the input:
`field` are the characters of the field being read, `fields` the fields of the
record being read, `records` the records read. An empty line where a record
would start is skipped; a quote inside an unquoted field, a character other than
quote, comma or line feed after the closing quote, and an input that ends inside
a quoted field are errors (`none`). -/
def readChars : ReadState → List Char → List String → List Row → List Char → Option (List Row)
  | ReadState.fieldStart, _, fields, records, [] =>
    if fields = [] then some records else some (records ++ [fields ++ [""]])
  | ReadState.unquoted, field, fields, records, [] =>
    some (records ++ [fields ++ [String.mk field]])
  | ReadState.quoted, _, _, _, [] => none
  | ReadState.quoteSeen, field, fields, records, [] =>
    some (records ++ [fields ++ [String.mk field]])
  | ReadState.fieldStart, _, fields, records, c :: rest =>
    if c = '"' then readChars ReadState.quoted [] fields records rest
    else if c = ',' then readChars ReadState.fieldStart [] (fields ++ [""]) records rest
    else if c = '\n' then
      if fields = [] then readChars ReadState.fieldStart [] [] records rest
      else readChars ReadState.fieldStart [] [] (records ++ [fields ++ [""]]) rest
    else readChars ReadState.unquoted [c] fields records rest
  | ReadState.unquoted, field, fields, records, c :: rest =>
    if c = '"' then none
    else if c = ',' then
      readChars ReadState.fieldStart [] (fields ++ [String.mk field]) records rest
    else if c = '\n' then
      readChars ReadState.fieldStart [] [] (records ++ [fields ++ [String.mk field]]) rest
    else readChars ReadState.unquoted (field ++ [c]) fields records rest
  | ReadState.quoted, field, fields, records, c :: rest =>
    if c = '"' then readChars ReadState.quoteSeen field fields records rest
    else readChars ReadState.quoted (field ++ [c]) fields records rest
  | ReadState.quoteSeen, field, fields, records, c :: rest =>
    if c = '"' then readChars ReadState.quoted (field ++ ['"']) fields records rest
    else if c = ',' then
      readChars ReadState.fieldStart [] (fields ++ [String.mk field]) records rest
    else if c = '\n' then
      readChars ReadState.fieldStart [] [] (records ++ [fields ++ [String.mk field]]) rest
    else none

/-- What `csv.Reader.ReadAll` returns on a file, with the default
`FieldsPerRecord = 0`: the records, or an error (`none`) when the input does not
parse or a record has another number of fields than the first one. -/
def ReadAll (content : List Char) : Option (List Row) :=
  match readChars ReadState.fieldStart [] [] [] (readLines content) with
  | none => none
  | some [] => some []
  | some (first :: rest) =>
    if rest.all (fun r => decide (r.length = first.length)) = true then some (first :: rest)
    else none

/-- The calls `writer.Write(row); writer.Flush()` on the writer of `path`: what
`csv.Writer` writes for the record goes to the end of the file. -/
def appendRow (fs : FS) (path : String) (row : Row) : FS :=
  fun p => if p = path then some ((fs p).getD [] ++ csvLine row) else fs p

/-! ## Data model -/

/-- PacketLog represents a single entry in the CSV log. -/
structure PacketLog where
  Timestamp : String
  Direction : String
  Size : Int
  IP : String
  Port : String
  deriving DecidableEq

/-- CacheKey uniquely identifies a packet group for aggregation. -/
structure CacheKey where
  Direction : String
  IP : String
  Port : String
  deriving DecidableEq

/-- CacheEntry stores aggregated data for packets with the same CacheKey. -/
structure CacheEntry where
  SizeSum : Int
  LastSeen : Time
  deriving DecidableEq

/-- The map `cache` of `main`. -/
abbrev Cache := List (CacheKey × CacheEntry)

/-- The slice `record` that `SavePacket` builds from a log. -/
def logRow (log : PacketLog) : Row :=
  [log.Timestamp, log.Direction, Itoa log.Size, log.IP, log.Port]

/-- SavePacket writes a PacketLog entry to the CSV file. -/
def SavePacket (log : PacketLog) (writer : String) (fs : FS) : FS :=
  appendRow fs writer (logRow log)

/-! ## The aggregation cache (main.go 229-237) -/

/-- The cache update of the capture loop: an existing entry gets
`SizeSum += size` and a new `LastSeen`, a missing key a new entry. -/
def Record : Cache → CacheKey → Int → Time → Cache
  | [], key, size, now => [(key, { SizeSum := size, LastSeen := now })]
  | (k, entry) :: rest, key, size, now =>
    if k = key then (k, { SizeSum := wrapInt (entry.SizeSum + size), LastSeen := now }) :: rest
    else (k, entry) :: Record rest key size now

/-- Go's `delete(cache, k)`. -/
def delete (cache : Cache) (k : CacheKey) : Cache :=
  cache.filter (fun ke => decide (ke.1 ≠ k))

/-! ## flushCache (main.go 250-267) -/

/-- The `PacketLog` values the first loop of `flushCache` hands to `SavePacket`,
one per cache entry. -/
def flushLogs (cache : Cache) (timestamp : String) : List PacketLog :=
  cache.map (fun ke =>
    { Timestamp := timestamp, Direction := ke.1.Direction, Size := ke.2.SizeSum,
      IP := ke.1.IP, Port := ke.1.Port })

/-- The function flushCache writes aggregated cache entries to CSV and clears
the cache; with a nil writer it returns at once. -/
def flushCache (cache : Cache) (writer : Option String) (now : Time) (fs : FS) : Cache × FS :=
  match writer with
  | none => (cache, fs)
  | some w =>
    let timestamp := formatTimestamp now
    let fs1 := (flushLogs cache timestamp).foldl (fun acc log => SavePacket log w acc) fs
    (cache.foldl (fun c ke => delete c ke.1) cache, fs1)

/-! ## GenerateSummary (main.go 59-102) -/

/-- The accumulators of `GenerateSummary`: the two totals and `ipCounter`. A
counter is at most the number of records read, so it never overflows. -/
structure Report where
  uploadTotal : Int
  downloadTotal : Int
  ipCounter : List (String × Nat)
  deriving DecidableEq

/-- The statement `ipCounter[ip]++`. -/
def incr : List (String × Nat) → String → List (String × Nat)
  | [], ip => [(ip, 1)]
  | (k, v) :: rest, ip => if k = ip then (k, v + 1) :: rest else (k, v) :: incr rest ip

/-- The read `ipCounter[ip]`, 0 for a missing key. -/
def hits : List (String × Nat) → String → Nat
  | [], _ => 0
  | (k, v) :: rest, ip => if k = ip then v else hits rest ip

/-- One iteration of the loop over `records[1:]`; `none` is the run-time panic
of an index out of range. -/
def summaryRow (acc : Report) (row : Row) : Option Report :=
  match row[2]?, row[1]?, row[3]? with
  | some sizeField, some direction, some ip =>
    let size := (Atoi sizeField).1
    let acc1 : Report :=
      if direction = "Upload" then { acc with uploadTotal := wrapInt (acc.uploadTotal + size) }
      else if direction = "Download" then
        { acc with downloadTotal := wrapInt (acc.downloadTotal + size) }
      else acc
    some { acc1 with ipCounter := incr acc1.ipCounter ip }
  | _, _, _ => none

/-- The loop `for _, row := range records[1:]`. -/
def summaryLoop : List Row → Report → Option Report
  | [], acc => some acc
  | row :: rest, acc =>
    match summaryRow acc row with
    | none => none
    | some acc1 => summaryLoop rest acc1

/-- How a call of `GenerateSummary` ends. -/
inductive SummaryOutcome where
  | cannotOpen
  | insufficient
  | indexPanic
  | report (r : Report)
  deriving DecidableEq

/-- The body of `GenerateSummary` from the check of `len(records)` on. -/
def summarizeRecords (records : List Row) : SummaryOutcome :=
  if records.length < 2 then SummaryOutcome.insufficient
  else
    match summaryLoop (records.drop 1) { uploadTotal := 0, downloadTotal := 0, ipCounter := [] } with
    | none => SummaryOutcome.indexPanic
    | some r => SummaryOutcome.report r

/-- GenerateSummary creates and displays a summary report from CSV logs. -/
def GenerateSummary (fs : FS) (logPath : String) : SummaryOutcome :=
  match fs logPath with
  | none => SummaryOutcome.cannotOpen
  | some content =>
    match ReadAll content with
    | none => SummaryOutcome.insufficient
    | some records => summarizeRecords records

/-- The reports a call of `GenerateSummary` prints. -/
def printed : SummaryOutcome → List Report
  | SummaryOutcome.report r => [r]
  | _ => []

/-- The lines under "Top Contacted IPs": the first five entries met when
ranging over `ipCounter`. -/
def topContacted (r : Report) : List (String × Nat) := r.ipCounter.take 5

/-! ## The capture loop and the handlers of `main` -/

/-- What the capture loop reads of a packet: arrival time, length, and the
source and destination endpoints of its network and transport layers. -/
structure Packet where
  Timestamp : Time
  Length : Int
  NetworkLayer : Option (String × String)
  TransportLayer : Option (String × String)

/-- The key of packets without endpoint information. -/
def unknownKey : CacheKey := { Direction := "unknown", IP := "unknown", Port := "unknown" }

/-- Flow classification (main.go 182-205, 229). `addresses` are the addresses
of the selected device; `none` is the panic of `Addresses[0]` on a device
without address. -/
def classify (packet : Packet) (addresses : List String) : Option CacheKey :=
  match packet.NetworkLayer with
  | none => some unknownKey
  | some (srcIP, dstIP) =>
    match packet.TransportLayer with
    | none => some unknownKey
    | some (srcPort, dstPort) =>
      match addresses with
      | [] => none
      | localAddr :: _ =>
        if srcIP = localAddr then some { Direction := "Upload", IP := dstIP, Port := dstPort }
        else some { Direction := "Download", IP := srcIP, Port := srcPort }

/-- The variables of `main` shared by the capture loop and the two handlers,
and the file system. -/
structure State where
  currentMinute : String
  logFile : Option String
  writer : Option String
  logPath : String
  cache : Cache
  fs : FS

/-- The state in which the capture loop starts, on the files `fs`. -/
def initState (fs : FS) : State :=
  { currentMinute := "", logFile := none, writer := none, logPath := "", cache := [], fs := fs }

/-- The header record of a new bucket file. -/
def header : Row := ["Timestamp", "Direction", "Size(Bytes)", "IP", "Port"]

/-- The path `filepath.Join(logDir, fmt.Sprintf("results-%s.csv", minute))`
with `logDir = "logs"` and separator `/`. -/
def bucketPath (minute : String) : String := "logs" ++ "/" ++ ("results-" ++ minute ++ ".csv")

/-- Bucket rotation (main.go 207-227): on a new label the file of the bucket is
opened for appending and, when it did not exist, gets the header. Closing the
previous file leaves its content as it is. -/
def ensureBucket (s : State) (timestamp : Time) : State :=
  let minute := formatMinute timestamp
  if minute ≠ s.currentMinute then
    let logPath := bucketPath minute
    let isNew : Bool := (s.fs logPath).isNone
    let fs1 := openAppend s.fs logPath
    let fs2 := if isNew = true then appendRow fs1 logPath header else fs1
    { s with
      logPath := logPath, logFile := some logPath, writer := some logPath,
      fs := fs2, currentMinute := minute }
  else s

/-- One iteration of the capture loop (main.go 176-237): classify, rotate,
record. The hourly summary at its end only prints and is left out. -/
def processPacket (s : State) (addresses : List String) (packet : Packet) (now : Time) :
    Option State :=
  match classify packet addresses with
  | none => none
  | some key =>
    let s1 := ensureBucket s packet.Timestamp
    some { s1 with cache := Record s1.cache key packet.Length now }

/-- The capture loop over a sequence of packets, each with the time of its
cache update. -/
def runPackets (s : State) (addresses : List String) : List (Packet × Time) → Option State
  | [] => some s
  | (packet, now) :: rest =>
    match processPacket s addresses packet now with
    | none => none
    | some s1 => runPackets s1 addresses rest

/-- The periodic flusher (main.go 167-174): one `flushCache` under the lock. -/
def periodicFlush (s : State) (now : Time) : State :=
  let r := flushCache s.cache s.writer now s.fs
  { s with cache := r.1, fs := r.2 }

/-- The shutdown handler (main.go 153-164): `flushCache` under the lock, flush
and close of the open file, then one call of `GenerateSummary` on `logPath`. -/
def shutdown (s : State) (now : Time) : State × SummaryOutcome :=
  let r := flushCache s.cache s.writer now s.fs
  ({ s with cache := r.1, fs := r.2 }, GenerateSummary r.2 s.logPath)

/-- Atomic steps of the program on the shared state. -/
inductive Op where
  | ensure (timestamp : Time)
  | record (key : CacheKey) (size : Int) (now : Time)
  | flush (now : Time)

/-- Effect of one atomic step. -/
def applyOp (s : State) : Op → State
  | Op.ensure timestamp => ensureBucket s timestamp
  | Op.record key size now => { s with cache := Record s.cache key size now }
  | Op.flush now => periodicFlush s now

/-- Effect of a sequence of atomic steps. -/
def run (s : State) (ops : List Op) : State := ops.foldl applyOp s

/-! ## Sequences of cache operations -/

/-- The cache after the updates `Record(key, s₁), …, Record(key, sₙ)`, each
size with the time of its update. -/
def recordAll (cache : Cache) (key : CacheKey) (recs : List (Int × Time)) : Cache :=
  recs.foldl (fun c r => Record c key r.1 r.2) cache

/-- Sum of the `SizeSum` of the entries a cache holds. -/
def heldSum (cache : Cache) : Int := (cache.map (fun ke => ke.2.SizeSum)).sum

/-- Atomic steps on the cache: a cache update or a drain. -/
inductive CacheStep where
  | record (key : CacheKey) (size : Int) (now : Time)
  | drain (now : Time)

/-- The cache and file system, with the history an observer keeps: the logs the
drains have emitted and the sizes recorded so far. -/
structure Trace where
  cache : Cache
  fs : FS
  drained : List PacketLog
  recorded : List Int

/-- One atomic step with the writer of `w` open: `record` is the cache update
of the capture loop, `drain` a call of `flushCache`. -/
def cacheStep (w : String) (t : Trace) : CacheStep → Trace
  | CacheStep.record key size now =>
    { t with cache := Record t.cache key size now, recorded := t.recorded ++ [size] }
  | CacheStep.drain now =>
    { cache := (flushCache t.cache (some w) now t.fs).1,
      fs := (flushCache t.cache (some w) now t.fs).2,
      drained := t.drained ++ flushLogs t.cache (formatTimestamp now),
      recorded := t.recorded }

/-- A sequence of atomic steps from the empty cache. -/
def runCache (w : String) (fs : FS) (steps : List CacheStep) : Trace :=
  steps.foldl (cacheStep w) { cache := [], fs := fs, drained := [], recorded := [] }

/-- Sum of the sizes the drains have emitted. -/
def drainedSum (t : Trace) : Int := (t.drained.map PacketLog.Size).sum

/-- Sizes of the `record` steps of a sequence. -/
def stepSizes : List CacheStep → List Int
  | [] => []
  | CacheStep.record _ size _ :: rest => size :: stepSizes rest
  | CacheStep.drain _ :: rest => stepSizes rest

/-! ## The specification's wording, for comparison with the code -/

/-- Flow classification as the specification words it: the unknown key without
transport-layer information; otherwise upload to the destination when the source
address is the local address, and download from the source in every other case.
An address the packet does not have reads "unknown". -/
def specClassify (packet : Packet) (localAddr : String) : CacheKey :=
  match packet.TransportLayer with
  | none => unknownKey
  | some (srcPort, dstPort) =>
    if packet.NetworkLayer.map Prod.fst = some localAddr then
      { Direction := "Upload", IP := (packet.NetworkLayer.map Prod.snd).getD "unknown",
        Port := dstPort }
    else
      { Direction := "Download", IP := (packet.NetworkLayer.map Prod.fst).getD "unknown",
        Port := srcPort }

/-- A byte-count field as the specification words it: "parsed as a decimal
integer", an optional sign followed by one or more decimal digits, and 0 when it
does not parse. -/
def specParse (s : String) : Int :=
  match s.data with
  | [] => 0
  | c :: rest =>
    let body : List Char := if c = '+' ∨ c = '-' then rest else c :: rest
    if body ≠ [] ∧ body.all isDigit = true then
      (if decide (c = '-') = true then
        -((body.foldl (fun a d => a * 10 + digitVal d) 0 : Nat) : Int)
      else ((body.foldl (fun a d => a * 10 + digitVal d) 0 : Nat) : Int))
    else 0

/-- Sum, over the data rows whose direction field is exactly `direction`, of the
value of the byte-count field. -/
def directionTotal (value : String → Int) (direction : String) (data : List Row) : Int :=
  ((data.filter (fun row => decide (row.getD 1 "" = direction))).map
    (fun row => value (row.getD 2 ""))).sum

/-- Number of data rows whose IP field is `ip`. -/
def ipRows (ip : String) (data : List Row) : Nat :=
  (data.filter (fun row => decide (row.getD 3 "" = ip))).length

/-- Sum of `SizeSum` over the cache entries whose key has the given direction. -/
def cacheTotal (direction : String) (cache : Cache) : Int :=
  ((cache.filter (fun ke => decide (ke.1.Direction = direction))).map
    (fun ke => ke.2.SizeSum)).sum

/-- Number of cache keys with the given IP. -/
def keysWithIP (ip : String) (cache : Cache) : Nat :=
  (cache.filter (fun ke => decide (ke.1.IP = ip))).length

/-- How the content of one file may change while the program runs: an existing
file only gains what `csv.Writer` writes for rows of logs; a missing file stays
missing or becomes what `csv.Writer` writes for the header followed by rows of
logs. -/
def Grows (before after : Option (List Char)) : Prop :=
  match before with
  | some content =>
    ∃ logs : List PacketLog, after = some (content ++ csvLines (logs.map logRow))
  | none =>
    after = none
      ∨ ∃ logs : List PacketLog, after = some (csvLines (header :: logs.map logRow))

/-- The characters `csv.Reader` returns for a field that `csv.Writer` wrote:
a carriage return before a line feed is gone. -/
def crlf : List Char → List Char
  | [] => []
  | c :: rest => if c = '\r' ∧ rest.head? = some '\n' then crlf rest else c :: crlf rest

/-- The field `csv.Reader` returns for a field that `csv.Writer` wrote. -/
def readBack (field : String) : String := String.mk (crlf field.data)

/-- Number of cache keys whose IP `csv.Reader` returns as `ip`. -/
def keysReadAsIP (ip : String) (cache : Cache) : Nat :=
  (cache.filter (fun ke => decide (readBack ke.1.IP = ip))).length

/-- The field holds a carriage return followed by a line feed. -/
def hasCRLF : List Char → Bool
  | [] => false
  | c :: rest => (decide (c = '\r') && decide (rest.head? = some '\n')) || hasCRLF rest

/-! ## Arithmetic of `int` -/

theorem wrapInt_of_isInt (z : Int) (h : IsInt z) : wrapInt z = z := by
  unfold IsInt minInt maxInt at h
  unfold wrapInt
  omega

theorem isInt_wrapInt (z : Int) : IsInt (wrapInt z) := by
  unfold IsInt minInt maxInt wrapInt
  omega

theorem wrapInt_wrapInt_add (a b : Int) : wrapInt (wrapInt a + b) = wrapInt (a + b) := by
  unfold wrapInt
  omega

theorem wrapInt_add_wrapInt (a b : Int) : wrapInt (a + wrapInt b) = wrapInt (a + b) := by
  unfold wrapInt
  omega

theorem wrapInt_congr_add (a b c : Int) (h : wrapInt a = wrapInt b) :
    wrapInt (a + c) = wrapInt (b + c) := by
  unfold wrapInt at *
  omega

/-! ## Decimal digits -/

theorem digitChar_props (d : Nat) (h : d < 10) :
    isDigit (digitChar d) = true ∧ digitVal (digitChar d) = d ∧ digitChar d ≠ '-' := by
  interval_cases d <;> decide

theorem formatBits_eq (u : Nat) :
    ∀ fuel acc, u < fuel →
      formatBits fuel u acc
        = (if u < 10 then [digitChar u]
            else decimal (u / 10) ++ [digitChar (u % 10)]) ++ acc := by
  induction u using Nat.strong_induction_on with
  | _ u ih =>
    intro fuel acc hfuel
    cases fuel with
    | zero => omega
    | succ f =>
      by_cases hu : u < 10
      · simp [formatBits, hu]
      · have hdiv : u / 10 < u := by omega
        have h10 : u / 10 < f := by omega
        simp only [formatBits, hu, if_false]
        rw [ih (u / 10) hdiv f _ h10]
        have hdec : decimal (u / 10)
            = (if u / 10 < 10 then [digitChar (u / 10)]
                else decimal (u / 10 / 10) ++ [digitChar (u / 10 % 10)]) := by
          have := ih (u / 10) hdiv (u / 10 + 1) [] (by omega)
          simpa [decimal] using this
        rw [← hdec]
        simp

theorem decimal_eq (u : Nat) :
    decimal u = if u < 10 then [digitChar u] else decimal (u / 10) ++ [digitChar (u % 10)] := by
  have := formatBits_eq u (u + 1) [] (by omega)
  simpa [decimal] using this

theorem decimal_ne_nil (u : Nat) : decimal u ≠ [] := by
  rw [decimal_eq]
  split <;> simp

theorem decimal_digits (u : Nat) : ∀ c ∈ decimal u, isDigit c = true := by
  induction u using Nat.strong_induction_on with
  | _ u ih =>
    intro c hc
    rw [decimal_eq] at hc
    by_cases hu : u < 10
    · simp only [hu, if_true, List.mem_singleton] at hc
      subst hc
      exact (digitChar_props u hu).1
    · simp only [hu, if_false, List.mem_append, List.mem_singleton] at hc
      rcases hc with hc | hc
      · exact ih (u / 10) (by omega) c hc
      · subst hc
        exact (digitChar_props (u % 10) (by omega)).1

/-- Value of a digit sequence read after the accumulator `n`. -/
theorem digitsFold_append (l : List Char) (c : Char) (n : Nat) :
    (l ++ [c]).foldl (fun a d => a * 10 + digitVal d) n
      = (l.foldl (fun a d => a * 10 + digitVal d) n) * 10 + digitVal c := by
  simp [List.foldl_append]

theorem digitsFold_decimal (u : Nat) :
    (decimal u).foldl (fun a d => a * 10 + digitVal d) 0 = u := by
  induction u using Nat.strong_induction_on with
  | _ u ih =>
    rw [decimal_eq]
    by_cases hu : u < 10
    · simp [hu, (digitChar_props u hu).2.1]
    · simp only [hu, if_false, digitsFold_append, ih (u / 10) (by omega),
        (digitChar_props (u % 10) (by omega)).2.1]
      omega

theorem digitsFold_zeros (k : Nat) (l : List Char) :
    (List.replicate k '0' ++ l).foldl (fun a d => a * 10 + digitVal d) 0
      = l.foldl (fun a d => a * 10 + digitVal d) 0 := by
  induction k with
  | zero => simp
  | succ k ih =>
    simp only [List.replicate_succ, List.cons_append, List.foldl_cons]
    have : 0 * 10 + digitVal '0' = 0 := by decide
    rw [this]
    exact ih

theorem decimal_injective (u v : Nat) (h : decimal u = decimal v) : u = v := by
  rw [← digitsFold_decimal u, ← digitsFold_decimal v, h]

/-! ## Time layouts -/

theorem decimal_length (u : Nat) :
    (decimal u).length = if u < 10 then 1 else (decimal (u / 10)).length + 1 := by
  conv_lhs => rw [decimal_eq]
  split <;> simp

theorem padded_value (n k : Nat) :
    (List.replicate k '0' ++ decimal n).foldl (fun a d => a * 10 + digitVal d) 0 = n := by
  rw [digitsFold_zeros, digitsFold_decimal]

theorem padded_digits (n k : Nat) : ∀ c ∈ List.replicate k '0' ++ decimal n, isDigit c = true := by
  intro c hc
  rcases List.mem_append.mp hc with h | h
  · rw [(List.mem_replicate.mp h).2]
    decide
  · exact decimal_digits n c h

theorem appendInt_injective (x y : Int) (w : Nat) (h : appendInt x w = appendInt y w) :
    x = y := by
  unfold appendInt at h
  by_cases hx : x < 0 <;> by_cases hy : y < 0
  · simp only [hx, hy, if_true, List.singleton_append, List.cons.injEq, true_and] at h
    have := congrArg (List.foldl (fun a d => a * 10 + digitVal d) 0) h
    rw [padded_value, padded_value] at this
    omega
  · simp only [hx, hy, if_true, if_false, List.singleton_append, List.nil_append] at h
    have hmem : '-' ∈ List.replicate (w - (decimal y.natAbs).length) '0' ++ decimal y.natAbs := by
      rw [← h]
      exact List.mem_cons_self _ _
    have := padded_digits _ _ _ hmem
    exact absurd this (by decide)
  · simp only [hx, hy, if_true, if_false, List.singleton_append, List.nil_append] at h
    have hmem : '-' ∈ List.replicate (w - (decimal x.natAbs).length) '0' ++ decimal x.natAbs := by
      rw [h]
      exact List.mem_cons_self _ _
    have := padded_digits _ _ _ hmem
    exact absurd this (by decide)
  · simp only [hx, hy, if_false, List.nil_append] at h
    have := congrArg (List.foldl (fun a d => a * 10 + digitVal d) 0) h
    rw [padded_value, padded_value] at this
    omega

theorem appendInt_two_length (k : Nat) (h : k < 100) : (appendInt (k : Int) 2).length = 2 := by
  have hneg : ¬ ((k : Int) < 0) := by omega
  simp only [appendInt, hneg, if_false, List.nil_append, Int.natAbs_ofNat, List.length_append,
    List.length_replicate]
  rw [decimal_length]
  by_cases h1 : k < 10
  · simp [h1]
  · have h2 : k / 10 < 10 := by omega
    simp only [h1, if_false]
    rw [decimal_length]
    simp [h2]

theorem appendInt_year_length (y : Int) (h0 : 0 ≤ y) (h1 : y ≤ 9999) :
    (appendInt y 4).length = 4 := by
  have hneg : ¬ (y < 0) := by omega
  have hn : y.natAbs < 10000 := by omega
  simp only [appendInt, hneg, if_false, List.nil_append, List.length_append,
    List.length_replicate]
  generalize y.natAbs = n at hn
  rw [decimal_length]
  by_cases a1 : n < 10
  · simp [a1]
  · simp only [a1, if_false]
    rw [decimal_length]
    by_cases a2 : n / 10 < 10
    · simp [a2]
    · simp only [a2, if_false]
      rw [decimal_length]
      by_cases a3 : n / 10 / 10 < 10
      · simp [a3]
      · have a4 : n / 10 / 10 / 10 < 10 := by omega
        simp only [a3, if_false]
        rw [decimal_length]
        simp [a4]

theorem appendInt_nat_inj (a b : Nat) (w : Nat) (h : appendInt (a : Int) w = appendInt (b : Int) w) :
    a = b := by
  have := appendInt_injective _ _ _ h
  omega

theorem appendInt_chars (x : Int) (w : Nat) : ∀ c ∈ appendInt x w, c = '-' ∨ isDigit c = true := by
  intro c hc
  unfold appendInt at hc
  rcases List.mem_append.mp hc with h | h
  · left
    by_cases hx : x < 0
    · simpa [hx] using h
    · simp [hx] at h
  · exact Or.inr (padded_digits _ _ c h)

theorem formatTimestamp_no_cr (t : Time) {c : Char} (hc : c ∈ (formatTimestamp t).data) :
    c ≠ '\r' := by
  intro hcr
  subst hcr
  simp only [formatTimestamp, List.mem_append, List.mem_cons] at hc
  have hno : ∀ x w, '\r' ∉ appendInt x w := by
    intro x w hmem
    rcases appendInt_chars x w _ hmem with h | h
    · exact absurd h (by decide)
    · exact absurd h (by decide)
  rcases hc with h | h | h | h | h | h | h | h | h | h | h
  all_goals first
    | exact hno _ _ h
    | exact absurd h (by decide)

theorem minuteChars_inj (t1 t2 : Time) (h : minuteChars t1 = minuteChars t2) :
    t1.year = t2.year ∧ t1.month = t2.month ∧ t1.day = t2.day ∧ t1.hour = t2.hour := by
  unfold minuteChars at h
  have lm1 := appendInt_two_length t1.month.val (by omega)
  have lm2 := appendInt_two_length t2.month.val (by omega)
  have ld1 := appendInt_two_length t1.day.val (by omega)
  have ld2 := appendInt_two_length t2.day.val (by omega)
  have lh1 := appendInt_two_length t1.hour.val (by omega)
  have lh2 := appendInt_two_length t2.hour.val (by omega)
  obtain ⟨hy, hrest⟩ := List.append_inj' h (by simp [lm1, lm2, ld1, ld2, lh1, lh2])
  obtain ⟨hm, hrest⟩ := List.append_inj (List.cons.inj hrest).2 (by rw [lm1, lm2])
  obtain ⟨hd, hrest⟩ := List.append_inj (List.cons.inj hrest).2 (by rw [ld1, ld2])
  have hh := (List.cons.inj hrest).2
  refine ⟨appendInt_injective _ _ _ hy, ?_, ?_, ?_⟩
  · exact Fin.ext (appendInt_nat_inj _ _ _ hm)
  · exact Fin.ext (appendInt_nat_inj _ _ _ hd)
  · exact Fin.ext (appendInt_nat_inj _ _ _ hh)

theorem formatMinute_eq_iff (t1 t2 : Time) :
    formatMinute t1 = formatMinute t2
      ↔ t1.year = t2.year ∧ t1.month = t2.month ∧ t1.day = t2.day ∧ t1.hour = t2.hour := by
  constructor
  · intro h
    exact minuteChars_inj t1 t2 (congrArg String.data h)
  · rintro ⟨hy, hm, hd, hh⟩
    simp [formatMinute, minuteChars, hy, hm, hd, hh]

theorem bucketPath_eq_iff (a b : String) : bucketPath a = bucketPath b ↔ a = b := by
  constructor
  · intro h
    have h1 := congrArg String.data h
    simp only [bucketPath, String.data_append] at h1
    have h2 := List.append_cancel_left h1
    have h3 := List.append_cancel_right h2
    have h4 := List.append_cancel_left h3
    exact String.ext h4
  · intro h
    rw [h]

/-! ## Parsing decimal numbers -/

theorem digitsFold_ge (ds : List Char) :
    ∀ n : Nat, n ≤ ds.foldl (fun a d => a * 10 + digitVal d) n := by
  induction ds with
  | nil => intro n; simp
  | cons c cs ih =>
    intro n
    simp only [List.foldl_cons]
    have := ih (n * 10 + digitVal c)
    omega

theorem parseUintLoop_ok (ds : List Char) :
    ∀ n : Nat, (∀ c ∈ ds, isDigit c = true) →
      ds.foldl (fun a d => a * 10 + digitVal d) n ≤ maxUint64 →
      parseUintLoop ds n = (ds.foldl (fun a d => a * 10 + digitVal d) n, NumError.ok) := by
  induction ds with
  | nil => intro n _ _; rfl
  | cons c cs ih =>
    intro n hd hb
    simp only [List.foldl_cons] at hb ⊢
    have hge := digitsFold_ge cs (n * 10 + digitVal c)
    have hc : isDigit c = true := hd c (List.mem_cons_self _ _)
    have h1 : ¬ cutoff10 ≤ n := by
      unfold cutoff10
      unfold maxUint64 at hb
      omega
    have h2 : ¬ maxUint64 < n * 10 + digitVal c := by omega
    simp only [parseUintLoop, hc, h1, h2, if_false, Bool.true_eq_false]
    exact ih _ (fun c1 h => hd c1 (List.mem_cons_of_mem _ h)) hb

theorem parseUintLoop_cases (ds : List Char) :
    ∀ n : Nat,
      parseUintLoop ds n = (maxUint64, NumError.range)
      ∨ (parseUintLoop ds n = (ds.foldl (fun a d => a * 10 + digitVal d) n, NumError.ok)
          ∧ ds.all isDigit = true)
      ∨ (parseUintLoop ds n = (0, NumError.invalid) ∧ ds.all isDigit = false) := by
  induction ds with
  | nil => intro n; right; left; exact ⟨rfl, rfl⟩
  | cons c cs ih =>
    intro n
    by_cases hc : isDigit c = false
    · right; right
      simp [parseUintLoop, hc]
    · have hc1 : isDigit c = true := by simpa using hc
      by_cases h1 : cutoff10 ≤ n
      · left
        simp [parseUintLoop, hc1, h1]
      · by_cases h2 : maxUint64 < n * 10 + digitVal c
        · left
          simp [parseUintLoop, hc1, h1, h2]
        · have hstep : parseUintLoop (c :: cs) n = parseUintLoop cs (n * 10 + digitVal c) := by
            simp [parseUintLoop, hc1, h1, h2]
          rw [hstep]
          rcases ih (n * 10 + digitVal c) with h | ⟨h, ha⟩ | ⟨h, ha⟩
          · left; exact h
          · right; left
            exact ⟨by simpa using h, by simp [hc1, ha]⟩
          · right; right
            exact ⟨h, by simp [ha]⟩

theorem ParseUint_of_ne_nil (s : List Char) (h : s ≠ []) :
    ParseUint s = parseUintLoop s 0 := by
  cases s with
  | nil => exact absurd rfl h
  | cons c cs => rfl

/-- Round trip: `Atoi` undoes `Itoa` on every value of `int`. -/
theorem Atoi_Itoa (i : Int) (h : IsInt i) : Atoi (Itoa i) = (i, NumError.ok) := by
  unfold IsInt minInt maxInt at h
  have hd := decimal_digits i.natAbs
  have hv := digitsFold_decimal i.natAbs
  have hloop : parseUintLoop (decimal i.natAbs) 0 = (i.natAbs, NumError.ok) := by
    have := parseUintLoop_ok (decimal i.natAbs) 0 hd (by rw [hv]; unfold maxUint64; omega)
    rw [this, hv]
  by_cases hneg : i < 0
  · simp only [Atoi, Itoa, hneg, if_true, ParseInt]
    have hU : ParseUint (decimal i.natAbs) = (i.natAbs, NumError.ok) := by
      rw [ParseUint_of_ne_nil _ (decimal_ne_nil _)]
      exact hloop
    simp only [Char.reduceEq, or_true, if_true, hU, decide_True]
    have h1 : ¬ (9223372036854775808 < i.natAbs) := by omega
    have e : -((i.natAbs : Nat) : Int) = i := by omega
    simp only [Bool.true_eq_false, false_and, if_false, h1, and_false, if_true, e]
  · simp only [Atoi, Itoa, hneg, if_false]
    cases hdec : decimal i.natAbs with
    | nil => exact absurd hdec (decimal_ne_nil _)
    | cons c cs =>
      have hc : isDigit c = true := hd c (by rw [hdec]; exact List.mem_cons_self _ _)
      have hplus : c ≠ '+' := by
        intro hcp
        rw [hcp] at hc
        exact absurd hc (by decide)
      have hminus : c ≠ '-' := by
        intro hcp
        rw [hcp] at hc
        exact absurd hc (by decide)
      have hU : ParseUint (c :: cs) = (i.natAbs, NumError.ok) := by
        rw [ParseUint_of_ne_nil _ (List.cons_ne_nil _ _), ← hdec]
        exact hloop
      simp only [ParseInt, hplus, hminus, or_self, if_false, hU, decide_False]
      have h1 : ¬ (9223372036854775808 ≤ i.natAbs) := by omega
      have e : ((i.natAbs : Nat) : Int) = i := by omega
      simp only [h1, and_false, if_false, Bool.false_eq_true, false_and, e]

theorem Atoi_eq_specParse (s : String) (h : (Atoi s).2 ≠ NumError.range) :
    (Atoi s).1 = specParse s := by
  unfold Atoi at h ⊢
  unfold specParse
  cases hs : s.data with
  | nil => rfl
  | cons c rest =>
    rw [hs] at h
    simp only [ParseInt] at h ⊢
    generalize hbody : (if c = '+' ∨ c = '-' then rest else c :: rest) = body at h ⊢
    by_cases hnil : body = []
    · subst hnil
      simp [ParseUint]
    · rw [ParseUint_of_ne_nil body hnil] at h ⊢
      rcases parseUintLoop_cases body 0 with hr | ⟨hr, ha⟩ | ⟨hr, ha⟩
      · rw [hr] at h
        exfalso
        by_cases hneg : c = '-'
        · simp [hneg, maxUint64] at h
        · simp [hneg, maxUint64] at h
      · rw [hr] at h ⊢
        simp only [hnil, ne_eq, not_false_eq_true, ha, and_self, if_true]
        by_cases hneg : c = '-'
        · simp only [hneg, decide_True, Bool.true_eq_false, false_and, if_false, true_and,
            if_true] at h ⊢
          split at h
          · exact absurd rfl h
          · rename_i hlt
            rw [if_neg hlt]
        · simp only [hneg, decide_False, Bool.false_eq_true, false_and, if_false, true_and]
            at h ⊢
          split at h
          · exact absurd rfl h
          · rename_i hlt
            rw [if_neg hlt]
      · rw [hr]
        simp [ha]

theorem Atoi_range_value (s : String) (h : (Atoi s).2 = NumError.range) :
    (Atoi s).1 = maxInt ∨ (Atoi s).1 = minInt := by
  unfold Atoi at h ⊢
  cases hs : s.data with
  | nil => rw [hs] at h; simp [ParseInt] at h
  | cons c rest =>
    rw [hs] at h
    simp only [ParseInt] at h ⊢
    generalize ParseUint (if c = '+' ∨ c = '-' then rest else c :: rest) = r at h ⊢
    obtain ⟨un, e⟩ := r
    cases e
    · simp only at h ⊢
      split_ifs at h ⊢ <;> simp_all
    · simp at h
    · simp only at h ⊢
      split_ifs at h ⊢ <;> simp_all

/-! ## The summary loop -/

theorem hits_incr (m : List (String × Nat)) (ip ip1 : String) :
    hits (incr m ip) ip1 = hits m ip1 + (if ip = ip1 then 1 else 0) := by
  induction m with
  | nil => simp [incr, hits]
  | cons a rest ih =>
    obtain ⟨k, v⟩ := a
    by_cases hk : k = ip
    · by_cases h1 : ip = ip1
      · simp [incr, hits, hk, h1]
      · simp [incr, hits, hk, h1]
    · by_cases h1 : k = ip1
      · have h2 : ¬ ip = ip1 := fun e => hk (h1.trans e.symm)
        have h3 : ¬ ip1 = ip := fun e => h2 e.symm
        subst h1
        simp [incr, hits, h2, hk]
      · simp [incr, hits, hk, h1, ih]

theorem directionTotal_cons (value : String → Int) (direction : String) (row : Row)
    (data : List Row) :
    directionTotal value direction (row :: data)
      = (if row.getD 1 "" = direction then value (row.getD 2 "") else 0)
        + directionTotal value direction data := by
  by_cases h : row.getD 1 "" = direction
  · simp only [directionTotal, List.filter_cons, h, decide_True, if_true, List.map_cons,
      List.sum_cons]
  · simp only [directionTotal, List.filter_cons, h, decide_False, Bool.false_eq_true,
      if_false, zero_add]

theorem ipRows_cons (ip : String) (row : Row) (data : List Row) :
    ipRows ip (row :: data) = (if row.getD 3 "" = ip then 1 else 0) + ipRows ip data := by
  by_cases h : row.getD 3 "" = ip
  · simp only [ipRows, List.filter_cons, h, decide_True, if_true, List.length_cons]
    omega
  · simp only [ipRows, List.filter_cons, h, decide_False, Bool.false_eq_true, if_false,
      zero_add]

theorem summaryRow_eq (acc : Report) (row : Row) (h : 4 ≤ row.length) :
    summaryRow acc row = some
      { uploadTotal :=
          if row.getD 1 "" = "Upload" then
            wrapInt (acc.uploadTotal + (Atoi (row.getD 2 "")).1)
          else acc.uploadTotal,
        downloadTotal :=
          if row.getD 1 "" = "Download" then
            wrapInt (acc.downloadTotal + (Atoi (row.getD 2 "")).1)
          else acc.downloadTotal,
        ipCounter := incr acc.ipCounter (row.getD 3 "") } := by
  match row, h with
  | a :: b :: c :: d :: rest, _ =>
    by_cases h1 : b = "Upload"
    · have h2 : ¬ ("Upload" = "Download") := by decide
      simp [summaryRow, h1, h2]
    · by_cases h3 : b = "Download"
      · simp [summaryRow, h1, h3]
      · simp [summaryRow, h1, h3]

theorem summaryLoop_spec (data : List Row) :
    ∀ acc : Report, (∀ row ∈ data, 4 ≤ row.length) →
      IsInt acc.uploadTotal → IsInt acc.downloadTotal →
      ∃ r, summaryLoop data acc = some r
        ∧ r.uploadTotal
          = wrapInt (acc.uploadTotal + directionTotal (fun s => (Atoi s).1) "Upload" data)
        ∧ r.downloadTotal
          = wrapInt (acc.downloadTotal + directionTotal (fun s => (Atoi s).1) "Download" data)
        ∧ ∀ ip, hits r.ipCounter ip = hits acc.ipCounter ip + ipRows ip data := by
  induction data with
  | nil =>
    intro acc _ hu hd
    refine ⟨acc, rfl, ?_, ?_, ?_⟩
    · simp [directionTotal, wrapInt_of_isInt _ hu]
    · simp [directionTotal, wrapInt_of_isInt _ hd]
    · intro ip; simp [ipRows]
  | cons row rest ih =>
    intro acc hlen hu hd
    obtain ⟨acc1, hrow, ha1, ha2, ha3⟩ :
        ∃ acc1 : Report, summaryRow acc row = some acc1
          ∧ acc1.uploadTotal = (if row.getD 1 "" = "Upload" then
              wrapInt (acc.uploadTotal + (Atoi (row.getD 2 "")).1) else acc.uploadTotal)
          ∧ acc1.downloadTotal = (if row.getD 1 "" = "Download" then
              wrapInt (acc.downloadTotal + (Atoi (row.getD 2 "")).1) else acc.downloadTotal)
          ∧ acc1.ipCounter = incr acc.ipCounter (row.getD 3 "") :=
      ⟨_, summaryRow_eq acc row (hlen row (List.mem_cons_self _ _)), rfl, rfl, rfl⟩
    simp only [summaryLoop, hrow]
    obtain ⟨r, hr, h1, h2, h3⟩ := ih acc1 (fun x hx => hlen x (List.mem_cons_of_mem _ hx))
      (by
        rw [ha1]
        split
        · exact isInt_wrapInt _
        · exact hu)
      (by
        rw [ha2]
        split
        · exact isInt_wrapInt _
        · exact hd)
    refine ⟨r, hr, ?_, ?_, ?_⟩
    · rw [h1, ha1, directionTotal_cons]
      by_cases hdir : row.getD 1 "" = "Upload"
      · simp only [hdir, if_true]
        rw [wrapInt_wrapInt_add, add_assoc]
      · simp only [hdir, if_false, zero_add]
    · rw [h2, ha2, directionTotal_cons]
      by_cases hdir : row.getD 1 "" = "Download"
      · simp only [hdir, if_true]
        rw [wrapInt_wrapInt_add, add_assoc]
      · simp only [hdir, if_false, zero_add]
    · intro ip
      rw [h3 ip, ha3, hits_incr, ipRows_cons]
      omega

theorem directionTotal_congr (v1 v2 : String → Int) (direction : String) (data : List Row)
    (h : ∀ row ∈ data, v1 (row.getD 2 "") = v2 (row.getD 2 "")) :
    directionTotal v1 direction data = directionTotal v2 direction data := by
  induction data with
  | nil => rfl
  | cons row rest ih =>
    rw [directionTotal_cons, directionTotal_cons, h row (List.mem_cons_self _ _),
      ih (fun x hx => h x (List.mem_cons_of_mem _ hx))]

/-! ## Round trip of `encoding/csv` -/

theorem readLines_cons_ne (c : Char) (rest : List Char) (h : c ≠ '\r') :
    readLines (c :: rest) = c :: readLines rest := by
  simp [readLines, h]

theorem readLines_plain (a : List Char) (b : List Char) (h : ∀ c ∈ a, c ≠ '\r') :
    readLines (a ++ b) = a ++ readLines b := by
  induction a with
  | nil => rfl
  | cons c rest ih =>
    rw [List.cons_append, readLines_cons_ne _ _ (h c (List.mem_cons_self _ _)),
      ih (fun d hd => h d (List.mem_cons_of_mem _ hd))]
    rfl

theorem crlf_plain (a : List Char) (h : ∀ c ∈ a, c ≠ '\r') : crlf a = a := by
  induction a with
  | nil => rfl
  | cons c rest ih =>
    have hc := h c (List.mem_cons_self _ _)
    simp [crlf, hc, ih (fun d hd => h d (List.mem_cons_of_mem _ hd))]

theorem quoteBody_head (f b : List Char) :
    (quoteBody f ++ '"' :: b).head? = some '\n' ↔ f.head? = some '\n' := by
  cases f with
  | nil => simp [quoteBody]
  | cons c rest =>
    by_cases hc : c = '"'
    · subst hc
      simp [quoteBody]
    · simp [quoteBody, hc]

theorem readLines_cr_lf (rest : List Char) (h : rest.head? = some '\n') :
    readLines ('\r' :: rest) = readLines rest := by
  simp [readLines, h]

theorem readLines_cr_other (rest : List Char) (h0 : rest ≠ []) (h : rest.head? ≠ some '\n') :
    readLines ('\r' :: rest) = '\r' :: readLines rest := by
  simp [readLines, h, h0]

theorem crlf_cr_lf (rest : List Char) (h : rest.head? = some '\n') :
    crlf ('\r' :: rest) = crlf rest := by
  simp [crlf, h]

theorem crlf_cr_other (rest : List Char) (h : rest.head? ≠ some '\n') :
    crlf ('\r' :: rest) = '\r' :: crlf rest := by
  simp [crlf, h]

theorem crlf_cons_ne (c : Char) (rest : List Char) (h : c ≠ '\r') :
    crlf (c :: rest) = c :: crlf rest := by
  simp [crlf, h]

theorem readLines_quoteBody (f : List Char) (b : List Char) :
    readLines (quoteBody f ++ '"' :: b) = quoteBody (crlf f) ++ '"' :: readLines b := by
  induction f with
  | nil =>
    simp only [quoteBody, crlf, List.nil_append]
    exact readLines_cons_ne _ _ (by decide)
  | cons c rest ih =>
    by_cases hq : c = '"'
    · subst hq
      rw [crlf_cons_ne _ _ (by decide)]
      simp only [quoteBody, if_true, List.cons_append]
      rw [readLines_cons_ne _ _ (by decide), readLines_cons_ne _ _ (by decide), ih]
    · by_cases hr : c = '\r'
      · subst hr
        have hb : quoteBody ('\r' :: rest) = '\r' :: quoteBody rest := by
          simp [quoteBody]
        rw [hb, List.cons_append]
        by_cases hn : rest.head? = some '\n'
        · rw [readLines_cr_lf _ ((quoteBody_head rest b).mpr hn), crlf_cr_lf _ hn, ih]
        · have hb2 : quoteBody ('\r' :: crlf rest) = '\r' :: quoteBody (crlf rest) := by
            simp [quoteBody]
          rw [readLines_cr_other _ (by simp) (fun h => hn ((quoteBody_head rest b).mp h)),
            crlf_cr_other _ hn, ih, hb2, List.cons_append]
      · rw [crlf_cons_ne _ _ hr]
        simp only [quoteBody, hq, if_false, List.cons_append]
        rw [readLines_cons_ne _ _ hr, ih]

theorem crlf_special (l : List Char) (h : '\r' ∈ l) : '\r' ∈ crlf l ∨ '\n' ∈ crlf l := by
  induction l with
  | nil => cases h
  | cons c rest ih =>
    by_cases hr : c = '\r'
    · subst hr
      by_cases hn : rest.head? = some '\n'
      · rw [crlf_cr_lf _ hn]
        right
        cases rest with
        | nil => simp at hn
        | cons d rest2 =>
          simp only [List.head?_cons, Option.some.injEq] at hn
          subst hn
          rw [crlf_cons_ne _ _ (by decide)]
          exact List.mem_cons_self _ _
      · rw [crlf_cr_other _ hn]
        left
        exact List.mem_cons_self _ _
    · rw [crlf_cons_ne _ _ hr]
      have hrest : '\r' ∈ rest := by
        rcases List.mem_cons.mp h with h1 | h1
        · exact absurd h1.symm hr
        · exact h1
      rcases ih hrest with h1 | h1
      · exact Or.inl (List.mem_cons_of_mem _ h1)
      · exact Or.inr (List.mem_cons_of_mem _ h1)

theorem fieldNeedsQuotes_of_mem (l : List Char) (c : Char) (hc : c ∈ l)
    (hs : c = '\n' ∨ c = '\r' ∨ c = '"' ∨ c = ',') : fieldNeedsQuotes l = true := by
  cases l with
  | nil => cases hc
  | cons r1 rest =>
    have hany : (r1 :: rest).any (fun c => decide (c = '\n' ∨ c = '\r' ∨ c = '"' ∨ c = ','))
        = true := by
      rw [List.any_eq_true]
      exact ⟨c, hc, by simpa using hs⟩
    simp only [fieldNeedsQuotes, hany, if_true]
    split <;> rfl

theorem not_special_of_plain (l : List Char) (h : fieldNeedsQuotes l = false) :
    ∀ c ∈ l, c ≠ '\n' ∧ c ≠ '\r' ∧ c ≠ '"' ∧ c ≠ ',' := by
  intro c hc
  refine ⟨?_, ?_, ?_, ?_⟩ <;> intro hcs <;>
    · have := fieldNeedsQuotes_of_mem l c hc (by simp [hcs])
      rw [h] at this
      cases this

theorem writeField_readLines (f : String) (d : Char) (b : List Char) (hd : d ≠ '\r') :
    readLines (writeField f ++ d :: b) = writeField (readBack f) ++ d :: readLines b := by
  by_cases hq : fieldNeedsQuotes f.data = true
  · have hq2 : fieldNeedsQuotes (crlf f.data) = true := by
      by_cases hr : '\r' ∈ f.data
      · rcases crlf_special _ hr with h | h
        · exact fieldNeedsQuotes_of_mem _ _ h (by simp)
        · exact fieldNeedsQuotes_of_mem _ _ h (by simp)
      · rw [crlf_plain _ (fun c hc hcr => hr (hcr ▸ hc))]
        exact hq
    simp only [writeField, hq, if_true, readBack, hq2, List.cons_append, List.append_assoc]
    rw [readLines_cons_ne _ _ (by decide), readLines_quoteBody]
    simp only [List.singleton_append, List.nil_append]
    rw [readLines_cons_ne _ _ hd]
  · have hq1 : fieldNeedsQuotes f.data = false := by simpa using hq
    have hplain : ∀ c ∈ f.data, c ≠ '\r' := fun c hc => (not_special_of_plain _ hq1 c hc).2.1
    have hcr : crlf f.data = f.data := crlf_plain _ hplain
    simp only [writeField, hq1, readBack, hcr, Bool.false_eq_true, if_false]
    rw [readLines_plain _ _ hplain, readLines_cons_ne _ _ hd]

theorem writeFields_readLines (r : Row) (b : List Char) :
    readLines (writeFields r ++ '\n' :: b)
      = writeFields (r.map readBack) ++ '\n' :: readLines b := by
  induction r with
  | nil => exact readLines_cons_ne _ _ (by decide)
  | cons f rest ih =>
    cases rest with
    | nil => exact writeField_readLines f '\n' b (by decide)
    | cons g more =>
      simp only [writeFields, List.map_cons, List.append_assoc, List.cons_append]
      rw [writeField_readLines f ',' _ (by decide)]
      simp only [writeFields, List.map_cons, List.append_assoc, List.cons_append] at ih
      rw [ih]

theorem csvLines_readLines (records : List Row) :
    readLines (csvLines records) = csvLines (records.map (fun r => r.map readBack)) := by
  induction records with
  | nil => rfl
  | cons r rest ih =>
    simp only [csvLines, csvLine, List.map_cons, List.append_assoc, List.singleton_append]
    rw [writeFields_readLines, ih]

theorem readChars_unquoted (g : List Char) (fields : List String) (records : List Row)
    (rest : List Char) (h : ∀ c ∈ g, c ≠ '\n' ∧ c ≠ '\r' ∧ c ≠ '"' ∧ c ≠ ',') :
    ∀ field, readChars ReadState.unquoted field fields records (g ++ rest)
      = readChars ReadState.unquoted (field ++ g) fields records rest := by
  induction g with
  | nil => intro field; simp
  | cons c more ih =>
    intro field
    obtain ⟨h1, _, h3, h4⟩ := h c (List.mem_cons_self _ _)
    simp only [List.cons_append, readChars, h1, h3, h4, if_false, List.append_eq]
    rw [ih (fun d hd => h d (List.mem_cons_of_mem _ hd))]
    simp

theorem readChars_quoted (g : List Char) (fields : List String) (records : List Row)
    (rest : List Char) :
    ∀ field, readChars ReadState.quoted field fields records (quoteBody g ++ '"' :: rest)
      = readChars ReadState.quoteSeen (field ++ g) fields records rest := by
  induction g with
  | nil => intro field; simp [quoteBody, readChars]
  | cons c more ih =>
    intro field
    by_cases hq : c = '"'
    · subst hq
      simp only [quoteBody, if_true, List.cons_append, readChars, List.append_eq]
      rw [ih]
      simp
    · simp only [quoteBody, hq, if_false, List.cons_append, readChars, List.append_eq]
      rw [ih]
      simp

theorem String_mk_data (f : String) : String.mk f.data = f := rfl

theorem readChars_field_comma (f : String) (x : List Char) (fields : List String)
    (records : List Row) (rest : List Char) :
    readChars ReadState.fieldStart x fields records (writeField f ++ ',' :: rest)
      = readChars ReadState.fieldStart [] (fields ++ [f]) records rest := by
  by_cases hq : fieldNeedsQuotes f.data = true
  · simp only [writeField, hq, if_true, List.cons_append, List.append_assoc, readChars,
      List.append_eq]
    rw [readChars_quoted]
    simp [readChars, String_mk_data]
  · have hq1 : fieldNeedsQuotes f.data = false := by simpa using hq
    have hplain := not_special_of_plain _ hq1
    simp only [writeField, hq1, Bool.false_eq_true, if_false]
    cases hdata : f.data with
    | nil =>
      have hf : f = "" := by
        have := String_mk_data f
        rw [hdata] at this
        exact this.symm
      simp [readChars, hf]
    | cons c more =>
      rw [hdata] at hplain
      obtain ⟨h1, _, h3, h4⟩ := hplain c (List.mem_cons_self _ _)
      simp only [List.cons_append, readChars, h1, h3, h4, if_false, List.append_eq]
      rw [readChars_unquoted more _ _ _ (fun d hd => hplain d (List.mem_cons_of_mem _ hd))]
      have hf : String.mk ([c] ++ more) = f := by
        rw [← String_mk_data f, hdata]
        rfl
      simp only [readChars, if_true, hf, Char.reduceEq, if_false]

theorem readChars_field_newline (f : String) (x : List Char) (fields : List String)
    (records : List Row) (rest : List Char) (h : ¬ (fields = [] ∧ f = "")) :
    readChars ReadState.fieldStart x fields records (writeField f ++ '\n' :: rest)
      = readChars ReadState.fieldStart [] [] (records ++ [fields ++ [f]]) rest := by
  by_cases hq : fieldNeedsQuotes f.data = true
  · simp only [writeField, hq, if_true, List.cons_append, List.append_assoc, readChars,
      List.append_eq]
    rw [readChars_quoted]
    simp [readChars, String_mk_data]
  · have hq1 : fieldNeedsQuotes f.data = false := by simpa using hq
    have hplain := not_special_of_plain _ hq1
    simp only [writeField, hq1, Bool.false_eq_true, if_false]
    cases hdata : f.data with
    | nil =>
      have hf : f = "" := by
        have := String_mk_data f
        rw [hdata] at this
        exact this.symm
      have hfields : fields ≠ [] := fun hnil => h ⟨hnil, hf⟩
      simp [readChars, hf, hfields]
    | cons c more =>
      rw [hdata] at hplain
      obtain ⟨h1, _, h3, h4⟩ := hplain c (List.mem_cons_self _ _)
      simp only [List.cons_append, readChars, h1, h3, h4, if_false, List.append_eq]
      rw [readChars_unquoted more _ _ _ (fun d hd => hplain d (List.mem_cons_of_mem _ hd))]
      have hf : String.mk ([c] ++ more) = f := by
        rw [← String_mk_data f, hdata]
        rfl
      simp only [readChars, if_true, hf, Char.reduceEq, if_false]

theorem readChars_record (more : List String) :
    ∀ (f : String) (x : List Char) (fields : List String) (records : List Row)
      (rest : List Char), ¬ (fields = [] ∧ more = [] ∧ f = "") →
      readChars ReadState.fieldStart x fields records (writeFields (f :: more) ++ '\n' :: rest)
        = readChars ReadState.fieldStart [] [] (records ++ [fields ++ f :: more]) rest := by
  induction more with
  | nil =>
    intro f x fields records rest h
    exact readChars_field_newline f x fields records rest (fun ⟨h1, h2⟩ => h ⟨h1, rfl, h2⟩)
  | cons g more ih =>
    intro f x fields records rest _
    simp only [writeFields, List.append_assoc, List.cons_append]
    rw [readChars_field_comma]
    have := ih g [] (fields ++ [f]) records rest (by simp)
    simp only [List.append_assoc, List.singleton_append] at this
    rw [← this]

theorem readChars_csvLines (rows : List Row) (h : ∀ r ∈ rows, 2 ≤ r.length) :
    ∀ records, readChars ReadState.fieldStart [] [] records (csvLines rows)
      = some (records ++ rows) := by
  induction rows with
  | nil => intro records; simp [csvLines, readChars]
  | cons r rest ih =>
    intro records
    have hr := h r (List.mem_cons_self _ _)
    match r, hr with
    | f :: g :: more, _ =>
      simp only [csvLines, csvLine, List.append_assoc, List.singleton_append]
      rw [readChars_record (g :: more) f [] [] records _ (by simp),
        ih (fun r1 h1 => h r1 (List.mem_cons_of_mem _ h1))]
      simp

/-- Round trip of `encoding/csv`: reading what `csv.Writer` wrote for records
of one length (two fields or more) returns the records, each field with its
carriage returns before line feeds removed. -/
theorem ReadAll_csvLines (first : Row) (rest : List Row) (h2 : 2 ≤ first.length)
    (h : ∀ r ∈ rest, r.length = first.length) :
    ReadAll (csvLines (first :: rest))
      = some ((first :: rest).map (fun r => r.map readBack)) := by
  have hlen : ∀ r ∈ (first :: rest).map (fun r => r.map readBack), 2 ≤ r.length := by
    intro r hr
    obtain ⟨r0, hr0, rfl⟩ := List.mem_map.mp hr
    rcases List.mem_cons.mp hr0 with rfl | hmem
    · simpa using h2
    · simpa [h r0 hmem] using h2
  have hall : (rest.map (fun r => r.map readBack)).all
      (fun r => decide (r.length = (first.map readBack).length)) = true := by
    rw [List.all_eq_true]
    intro r hr
    obtain ⟨r0, hr0, rfl⟩ := List.mem_map.mp hr
    simp [h r0 hr0]
  have hread := readChars_csvLines _ hlen []
  rw [List.nil_append, List.map_cons] at hread
  simp only [ReadAll, csvLines_readLines, List.map_cons, hread, hall, if_true]


/-! ## Cache updates and drains -/

theorem Record_keys (c : Cache) (k : CacheKey) (size : Int) (now : Time) :
    (Record c k size now).map Prod.fst
      = if k ∈ c.map Prod.fst then c.map Prod.fst else c.map Prod.fst ++ [k] := by
  induction c with
  | nil => simp [Record]
  | cons a rest ih =>
    obtain ⟨k1, e⟩ := a
    by_cases h : k1 = k
    · simp [Record, h]
    · have h1 : ¬ k = k1 := fun e1 => h e1.symm
      simp only [Record, h, if_false, List.map_cons, ih, List.mem_cons, h1, false_or]
      split <;> simp

/-- The cache stays a map: `Record` keeps the keys distinct. -/
theorem Record_nodup (c : Cache) (k : CacheKey) (size : Int) (now : Time)
    (h : (c.map Prod.fst).Nodup) : ((Record c k size now).map Prod.fst).Nodup := by
  rw [Record_keys]
  split
  · exact h
  · rename_i hk
    exact List.Nodup.append h (List.nodup_singleton k) (by simpa using hk)

theorem recordAll_singleton (k : CacheKey) (recs : List (Int × Time)) :
    ∀ (s : Int) (t : Time), IsInt s →
      ∃ v t1, recordAll [(k, { SizeSum := s, LastSeen := t })] k recs
          = [(k, { SizeSum := v, LastSeen := t1 })]
        ∧ v = wrapInt (s + (recs.map Prod.fst).sum) := by
  induction recs with
  | nil =>
    intro s t hs
    exact ⟨s, t, rfl, by simp [wrapInt_of_isInt s hs]⟩
  | cons r rest ih =>
    intro s t _
    obtain ⟨v, t1, hv, hsum⟩ := ih (wrapInt (s + r.1)) r.2 (isInt_wrapInt _)
    refine ⟨v, t1, ?_, ?_⟩
    · simpa [recordAll, Record] using hv
    · rw [hsum, wrapInt_wrapInt_add]
      simp [add_assoc]

theorem recordAll_empty (k : CacheKey) (recs : List (Int × Time)) (hne : recs ≠ [])
    (hint : ∀ r ∈ recs, IsInt r.1) :
    ∃ t1, recordAll [] k recs
      = [(k, { SizeSum := wrapInt (recs.map Prod.fst).sum, LastSeen := t1 })] := by
  cases recs with
  | nil => exact absurd rfl hne
  | cons r rest =>
    obtain ⟨v, t1, hv, hsum⟩ :=
      recordAll_singleton k rest r.1 r.2 (hint r (List.mem_cons_self _ _))
    refine ⟨t1, ?_⟩
    have : recordAll [] k (r :: rest)
        = recordAll [(k, { SizeSum := r.1, LastSeen := r.2 })] k rest := by
      simp [recordAll, Record]
    rw [this, hv, hsum]
    simp

theorem clear_eq_nil (l : Cache) :
    ∀ c : Cache, (∀ x ∈ c, ∃ ke ∈ l, ke.1 = x.1) →
      l.foldl (fun c ke => delete c ke.1) c = [] := by
  induction l with
  | nil =>
    intro c h
    cases c with
    | nil => rfl
    | cons x rest =>
      obtain ⟨ke, hke, _⟩ := h x (List.mem_cons_self _ _)
      cases hke
  | cons a l ih =>
    intro c h
    simp only [List.foldl_cons]
    apply ih
    intro x hx
    simp only [delete, List.mem_filter, decide_eq_true_eq] at hx
    obtain ⟨ke, hke, hkx⟩ := h x hx.1
    rcases List.mem_cons.mp hke with rfl | hmem
    · exact absurd hkx.symm hx.2
    · exact ⟨ke, hmem, hkx⟩

theorem flushCache_cache (cache : Cache) (w : String) (now : Time) (fs : FS) :
    (flushCache cache (some w) now fs).1 = [] := by
  simp only [flushCache]
  exact clear_eq_nil cache cache (fun x hx => ⟨x, hx, rfl⟩)

theorem csvLines_append (a b : List Row) : csvLines (a ++ b) = csvLines a ++ csvLines b := by
  induction a with
  | nil => rfl
  | cons r rest ih => simp [csvLines, ih]

theorem savePackets_apply (w : String) (logs : List PacketLog) :
    ∀ (fs : FS) (p : String),
      (logs.foldl (fun acc log => SavePacket log w acc) fs) p
        = if p = w ∧ logs ≠ [] then some ((fs w).getD [] ++ csvLines (logs.map logRow))
          else fs p := by
  induction logs with
  | nil => intro fs p; simp
  | cons log rest ih =>
    intro fs p
    simp only [List.foldl_cons, ih]
    by_cases hp : p = w
    · subst hp
      by_cases hr : rest = []
      · subst hr
        simp [SavePacket, appendRow, csvLines]
      · simp [SavePacket, appendRow, hr, csvLines]
    · simp [hp, SavePacket, appendRow]

theorem flushCache_fs (cache : Cache) (w : String) (now : Time) (fs : FS) (p : String) :
    (flushCache cache (some w) now fs).2 p
      = if p = w ∧ cache ≠ [] then
          some ((fs w).getD [] ++ csvLines ((flushLogs cache (formatTimestamp now)).map logRow))
        else fs p := by
  simp only [flushCache, savePackets_apply]
  simp [flushLogs]

/-! ## Accounting of recorded sizes -/

theorem heldSum_nonneg (c : Cache) (h : ∀ ke ∈ c, 0 ≤ ke.2.SizeSum) : 0 ≤ heldSum c := by
  induction c with
  | nil => simp [heldSum]
  | cons a rest ih =>
    have h1 := h a (List.mem_cons_self _ _)
    have h2 := ih (fun ke hke => h ke (List.mem_cons_of_mem _ hke))
    simp only [heldSum, List.map_cons, List.sum_cons] at *
    omega

theorem heldSum_Record_wrap (c : Cache) (k : CacheKey) (s : Int) (n : Time) :
    wrapInt (heldSum (Record c k s n)) = wrapInt (heldSum c + s) := by
  induction c with
  | nil => simp [Record, heldSum]
  | cons a rest ih =>
    obtain ⟨k1, e⟩ := a
    by_cases hk : k1 = k
    · simp only [Record, hk, if_true, heldSum, List.map_cons, List.sum_cons]
      rw [wrapInt_wrapInt_add]
      congr 1
      ring
    · simp only [Record, hk, if_false, heldSum, List.map_cons, List.sum_cons] at *
      rw [← wrapInt_add_wrapInt, ih, wrapInt_add_wrapInt]
      congr 1
      ring

theorem heldSum_Record_exact (c : Cache) (k : CacheKey) (s : Int) (n : Time)
    (hc : ∀ ke ∈ c, 0 ≤ ke.2.SizeSum) (hs : 0 ≤ s) (hb : heldSum c + s ≤ maxInt) :
    heldSum (Record c k s n) = heldSum c + s
      ∧ ∀ ke ∈ Record c k s n, 0 ≤ ke.2.SizeSum := by
  induction c with
  | nil =>
    refine ⟨by simp [Record, heldSum], ?_⟩
    intro ke hke
    simp only [Record, List.mem_singleton] at hke
    subst hke
    exact hs
  | cons a rest ih =>
    obtain ⟨k1, e⟩ := a
    have he : 0 ≤ e.SizeSum := hc (k1, e) (List.mem_cons_self _ _)
    have hrest : ∀ ke ∈ rest, 0 ≤ ke.2.SizeSum :=
      fun ke hke => hc ke (List.mem_cons_of_mem _ hke)
    have hr := heldSum_nonneg rest hrest
    have hsplit : heldSum ((k1, e) :: rest) = e.SizeSum + heldSum rest := by
      simp [heldSum]
    rw [hsplit] at hb
    simp only [maxInt] at hb ih
    by_cases hk : k1 = k
    · have hw : wrapInt (e.SizeSum + s) = e.SizeSum + s := by
        apply wrapInt_of_isInt
        unfold IsInt minInt maxInt
        omega
      refine ⟨?_, ?_⟩
      · simp only [Record, hk, if_true, heldSum, List.map_cons, List.sum_cons, hw]
        ring
      · intro ke hke
        simp only [Record, hk, if_true, List.mem_cons] at hke
        rcases hke with rfl | hke
        · simp only [hw]
          omega
        · exact hrest ke hke
    · obtain ⟨ih1, ih2⟩ := ih hrest (by omega)
      refine ⟨?_, ?_⟩
      · simp only [Record, hk, if_false, heldSum, List.map_cons, List.sum_cons] at *
        rw [ih1]
        ring
      · intro ke hke
        simp only [Record, hk, if_false, List.mem_cons] at hke
        rcases hke with rfl | hke
        · exact he
        · exact ih2 ke hke

theorem flushLogs_sizes (c : Cache) (ts : String) :
    ((flushLogs c ts).map PacketLog.Size).sum = heldSum c := by
  simp [flushLogs, heldSum, Function.comp_def]

theorem foldl_cacheStep_wrap (w : String) (steps : List CacheStep) :
    ∀ t : Trace,
      wrapInt (drainedSum (steps.foldl (cacheStep w) t)
          + heldSum (steps.foldl (cacheStep w) t).cache)
        = wrapInt (drainedSum t + heldSum t.cache + (stepSizes steps).sum) := by
  induction steps with
  | nil => intro t; simp [stepSizes]
  | cons st rest ih =>
    intro t
    rw [List.foldl_cons, ih]
    cases st with
    | record k s n =>
      simp only [cacheStep, stepSizes, List.sum_cons, drainedSum]
      have h := heldSum_Record_wrap t.cache k s n
      have e1 : (t.drained.map PacketLog.Size).sum + heldSum (Record t.cache k s n)
            + (stepSizes rest).sum
          = ((t.drained.map PacketLog.Size).sum + (stepSizes rest).sum)
            + heldSum (Record t.cache k s n) := by ring
      have e2 : (t.drained.map PacketLog.Size).sum + heldSum t.cache
            + (s + (stepSizes rest).sum)
          = ((t.drained.map PacketLog.Size).sum + (stepSizes rest).sum)
            + (heldSum t.cache + s) := by ring
      rw [e1, e2, ← wrapInt_add_wrapInt, h, wrapInt_add_wrapInt]
    | drain n =>
      simp only [cacheStep, stepSizes, drainedSum, flushCache_cache, List.map_append,
        List.sum_append, flushLogs_sizes]
      simp [heldSum]

theorem foldl_cacheStep_exact (w : String) (steps : List CacheStep) :
    ∀ t : Trace, (∀ ke ∈ t.cache, 0 ≤ ke.2.SizeSum) → (∀ s ∈ stepSizes steps, 0 ≤ s) →
      heldSum t.cache + (stepSizes steps).sum ≤ maxInt →
      drainedSum (steps.foldl (cacheStep w) t) + heldSum (steps.foldl (cacheStep w) t).cache
        = drainedSum t + heldSum t.cache + (stepSizes steps).sum := by
  induction steps with
  | nil => intro t _ _ _; simp [stepSizes]
  | cons st rest ih =>
    intro t hc hs hb
    rw [List.foldl_cons]
    cases st with
    | record k s n =>
      simp only [stepSizes, List.sum_cons, List.mem_cons, forall_eq_or_imp] at hs hb ⊢
      have hrest : 0 ≤ (stepSizes rest).sum := List.sum_nonneg hs.2
      obtain ⟨h1, h2⟩ := heldSum_Record_exact t.cache k s n hc hs.1 (by omega)
      rw [ih _ h2 hs.2 (by simp only [cacheStep]; omega)]
      simp only [cacheStep, drainedSum]
      rw [h1]
      ring
    | drain n =>
      simp only [stepSizes] at hs hb ⊢
      have hh := heldSum_nonneg t.cache hc
      rw [ih _ (by simp [cacheStep, flushCache_cache]) hs
        (by simp only [cacheStep, flushCache_cache, heldSum, List.map_nil, List.sum_nil]; omega)]
      simp only [cacheStep, drainedSum, flushCache_cache, List.map_append, List.sum_append,
        flushLogs_sizes]
      simp [heldSum]

theorem runCache_snoc (w : String) (fs : FS) (steps : List CacheStep) (st : CacheStep) :
    runCache w fs (steps ++ [st]) = cacheStep w (runCache w fs steps) st := by
  simp [runCache, List.foldl_append]

theorem summarizeRecords_spec (hdr : Row) (data : List Row) (hne : data ≠ [])
    (hlen : ∀ row ∈ data, 4 ≤ row.length) :
    ∃ r, summarizeRecords (hdr :: data) = SummaryOutcome.report r
      ∧ r.uploadTotal = wrapInt (directionTotal (fun s => (Atoi s).1) "Upload" data)
      ∧ r.downloadTotal = wrapInt (directionTotal (fun s => (Atoi s).1) "Download" data)
      ∧ ∀ ip, hits r.ipCounter ip = ipRows ip data := by
  obtain ⟨r, hr, h1, h2, h3⟩ :=
    summaryLoop_spec data { uploadTotal := 0, downloadTotal := 0, ipCounter := [] } hlen
      (by decide) (by decide)
  have hlen2 : ¬ (hdr :: data).length < 2 := by
    cases data with
    | nil => exact absurd rfl hne
    | cons a rest => simp
  refine ⟨r, ?_, ?_, ?_, ?_⟩
  · simp only [summarizeRecords, hlen2, if_false, List.drop_one, List.tail_cons, hr]
  · simpa using h1
  · simpa using h2
  · intro ip
    simpa [hits] using h3 ip

/-! ## Flushed rows as summary input -/

theorem logRow_length (log : PacketLog) : (logRow log).length = 5 := rfl

theorem crlf_no_lf (l : List Char) (h : '\n' ∉ crlf l) : crlf l = l := by
  induction l with
  | nil => rfl
  | cons c rest ih =>
    by_cases hc : c = '\r' ∧ rest.head? = some '\n'
    · exfalso
      obtain ⟨hc1, hc2⟩ := hc
      subst hc1
      rw [crlf_cr_lf _ hc2] at h
      cases rest with
      | nil => simp at hc2
      | cons d rest2 =>
        simp only [List.head?_cons, Option.some.injEq] at hc2
        subst hc2
        rw [crlf_cons_ne _ _ (by decide)] at h
        exact h (List.mem_cons_self _ _)
    · have e : crlf (c :: rest) = c :: crlf rest := by simp [crlf, hc]
      rw [e] at h ⊢
      rw [ih (fun hmem => h (List.mem_cons_of_mem _ hmem))]

theorem crlf_of_not_hasCRLF (l : List Char) (h : hasCRLF l = false) : crlf l = l := by
  induction l with
  | nil => rfl
  | cons c rest ih =>
    simp only [hasCRLF, Bool.or_eq_false_iff, Bool.and_eq_false_imp, decide_eq_true_eq,
      decide_eq_false_iff_not] at h
    have hc : ¬ (c = '\r' ∧ rest.head? = some '\n') := fun hcr => h.1 hcr.1 hcr.2
    simp [crlf, hc, ih h.2]

theorem hasCRLF_of_no_lf (l : List Char) (h : '\n' ∉ l) : hasCRLF l = false := by
  induction l with
  | nil => rfl
  | cons c rest ih =>
    have hrest : '\n' ∉ rest := fun hmem => h (List.mem_cons_of_mem _ hmem)
    have hhead : rest.head? ≠ some '\n' := by
      intro hh
      cases rest with
      | nil => simp at hh
      | cons d rest2 =>
        simp only [List.head?_cons, Option.some.injEq] at hh
        subst hh
        exact hrest (List.mem_cons_self _ _)
    simp [hasCRLF, hhead, ih hrest]

theorem readBack_eq_iff (d t : String) (ht : '\n' ∉ t.data) : readBack d = t ↔ d = t := by
  constructor
  · intro h
    have h1 : crlf d.data = t.data := congrArg String.data h
    have h2 : crlf d.data = d.data := crlf_no_lf _ (by rw [h1]; exact ht)
    exact String.ext (h2 ▸ h1)
  · intro h
    subst h
    exact String.ext (crlf_of_not_hasCRLF _ (hasCRLF_of_no_lf _ ht))

theorem Itoa_chars (i : Int) : ∀ c ∈ (Itoa i).data, c = '-' ∨ isDigit c = true := by
  intro c hc
  unfold Itoa at hc
  by_cases hneg : i < 0
  · simp only [hneg, if_true, List.mem_cons] at hc
    rcases hc with h | h
    · exact Or.inl h
    · exact Or.inr (decimal_digits _ _ h)
  · simp only [hneg, if_false] at hc
    exact Or.inr (decimal_digits _ _ hc)

theorem readBack_Itoa (i : Int) : readBack (Itoa i) = Itoa i := by
  apply String.ext
  apply crlf_plain
  intro c hc hcr
  subst hcr
  rcases Itoa_chars i _ hc with h | h
  · exact absurd h (by decide)
  · exact absurd h (by decide)

theorem directionTotal_flushLogs (direction ts : String) (cache : Cache)
    (hdir : '\n' ∉ direction.data) (hint : ∀ ke ∈ cache, IsInt ke.2.SizeSum) :
    directionTotal (fun s => (Atoi s).1) direction
        (((flushLogs cache ts).map logRow).map (fun r => r.map readBack))
      = cacheTotal direction cache := by
  induction cache with
  | nil => rfl
  | cons a rest ih =>
    have ha := Atoi_Itoa a.2.SizeSum (hint a (List.mem_cons_self _ _))
    have hrest := ih (fun ke hke => hint ke (List.mem_cons_of_mem _ hke))
    simp only [flushLogs, List.map_cons, List.map_map] at hrest ⊢
    rw [directionTotal_cons, hrest]
    have hiff := readBack_eq_iff a.1.Direction direction hdir
    by_cases hd : a.1.Direction = direction
    · have hd2 : readBack a.1.Direction = direction := hiff.mpr hd
      have hd3 : readBack direction = direction :=
        (readBack_eq_iff direction direction hdir).mpr rfl
      simp [logRow, hd, hd3, readBack_Itoa, ha, cacheTotal, List.filter_cons]
    · have hd2 : ¬ readBack a.1.Direction = direction := fun h => hd (hiff.mp h)
      simp [logRow, hd, hd2, cacheTotal, List.filter_cons]

theorem ipRows_flushLogs (ip ts : String) (cache : Cache) :
    ipRows ip (((flushLogs cache ts).map logRow).map (fun r => r.map readBack))
      = keysReadAsIP ip cache := by
  induction cache with
  | nil => rfl
  | cons a rest ih =>
    simp only [flushLogs, List.map_cons, List.map_map] at ih ⊢
    rw [ipRows_cons, ih]
    by_cases hd : readBack a.1.IP = ip
    · simp [logRow, hd, keysReadAsIP, List.filter_cons]
      omega
    · simp [logRow, hd, keysReadAsIP, List.filter_cons]

theorem keysReadAsIP_eq (ip : String) (cache : Cache)
    (h : ∀ ke ∈ cache, hasCRLF ke.1.IP.data = false) :
    keysReadAsIP ip cache = keysWithIP ip cache := by
  induction cache with
  | nil => rfl
  | cons a rest ih =>
    have ha : readBack a.1.IP = a.1.IP :=
      String.ext (crlf_of_not_hasCRLF _ (h a (List.mem_cons_self _ _)))
    have hrest := ih (fun ke hke => h ke (List.mem_cons_of_mem _ hke))
    simp only [keysReadAsIP, keysWithIP, List.filter_cons, ha] at hrest ⊢
    split <;> simp [hrest]

/-- The summary of a file that holds what `csv.Writer` wrote for a first record
and one or more further records, all of five fields. -/
theorem GenerateSummary_csvLines (fs : FS) (path : String) (first : Row) (data : List Row)
    (hfile : fs path = some (csvLines (first :: data))) (hne : data ≠ [])
    (hfirst : first.length = 5) (hlen : ∀ row ∈ data, row.length = 5) :
    ∃ r, GenerateSummary fs path = SummaryOutcome.report r
      ∧ r.uploadTotal = wrapInt (directionTotal (fun s => (Atoi s).1) "Upload"
          (data.map (fun r => r.map readBack)))
      ∧ r.downloadTotal = wrapInt (directionTotal (fun s => (Atoi s).1) "Download"
          (data.map (fun r => r.map readBack)))
      ∧ ∀ ip, hits r.ipCounter ip = ipRows ip (data.map (fun r => r.map readBack)) := by
  have hread := ReadAll_csvLines first data (by omega)
    (fun row hrow => by rw [hlen row hrow, hfirst])
  obtain ⟨r, hr, h1, h2, h3⟩ := summarizeRecords_spec (first.map readBack)
    (data.map (fun r => r.map readBack)) (by simpa using hne)
    (fun row hrow => by
      obtain ⟨r0, hr0, rfl⟩ := List.mem_map.mp hrow
      simp [hlen r0 hr0])
  refine ⟨r, ?_, h1, h2, h3⟩
  simp only [GenerateSummary, hfile, hread, List.map_cons, hr]

theorem formatMinute_ne_empty (t : Time) : formatMinute t ≠ "" := by
  intro h
  have h1 := congrArg String.data h
  have h2 := congrArg List.length h1
  simp [formatMinute, minuteChars] at h2

theorem ensureBucket_open (s : State) (ts : Time) (h : formatMinute ts ≠ s.currentMinute) :
    (ensureBucket s ts).writer = some (bucketPath (formatMinute ts))
      ∧ (ensureBucket s ts).logFile = some (bucketPath (formatMinute ts))
      ∧ (ensureBucket s ts).logPath = bucketPath (formatMinute ts)
      ∧ (ensureBucket s ts).currentMinute = formatMinute ts
      ∧ (ensureBucket s ts).cache = s.cache
      ∧ (ensureBucket s ts).fs (bucketPath (formatMinute ts))
          = some ((s.fs (bucketPath (formatMinute ts))).getD (csvLine header))
      ∧ ∀ q, q ≠ bucketPath (formatMinute ts) → (ensureBucket s ts).fs q = s.fs q := by
  refine ⟨?_, ?_, ?_, ?_, ?_, ?_, ?_⟩
  · simp [ensureBucket, h]
  · simp [ensureBucket, h]
  · simp [ensureBucket, h]
  · simp [ensureBucket, h]
  · simp [ensureBucket, h]
  · cases hfs : s.fs (bucketPath (formatMinute ts)) with
    | none => simp [ensureBucket, h, hfs, appendRow, openAppend]
    | some rows => simp [ensureBucket, h, hfs, appendRow, openAppend]
  · intro q hq
    cases hfs : s.fs (bucketPath (formatMinute ts)) with
    | none => simp [ensureBucket, h, hfs, appendRow, openAppend, hq]
    | some rows => simp [ensureBucket, h, hfs, appendRow, openAppend, hq]

theorem ensureBucket_same (s : State) (ts : Time) (h : formatMinute ts = s.currentMinute) :
    ensureBucket s ts = s := by
  simp [ensureBucket, h]

/-! ## Shutdown -/

theorem Record_ne_nil (c : Cache) (k : CacheKey) (size : Int) (now : Time) :
    Record c k size now ≠ [] := by
  cases c with
  | nil => simp [Record]
  | cons a rest =>
    obtain ⟨k1, e⟩ := a
    by_cases h : k1 = k <;> simp [Record, h]

theorem classify_some (packet : Packet) (localAddr : String) (others : List String) :
    ∃ key, classify packet (localAddr :: others) = some key := by
  unfold classify
  cases packet.NetworkLayer with
  | none => exact ⟨_, rfl⟩
  | some n =>
    obtain ⟨srcIP, dstIP⟩ := n
    cases packet.TransportLayer with
    | none => exact ⟨_, rfl⟩
    | some t =>
      obtain ⟨srcPort, dstPort⟩ := t
      by_cases h : srcIP = localAddr
      · exact ⟨{ Direction := "Upload", IP := dstIP, Port := dstPort }, by simp [h]⟩
      · exact ⟨{ Direction := "Download", IP := srcIP, Port := srcPort }, by simp [h]⟩

theorem processPacket_spec (fs0 : FS) (s : State) (localAddr : String) (others : List String)
    (packet : Packet) (now : Time)
    (hfs : ∀ p, s.fs p = fs0 p ∨ (fs0 p = none ∧ s.fs p = some (csvLine header)))
    (hw : (s.writer = none ∧ s.currentMinute = "")
      ∨ (s.writer = some s.logPath ∧ s.fs s.logPath ≠ none
          ∧ s.logPath = bucketPath s.currentMinute)) :
    ∃ s1, processPacket s (localAddr :: others) packet now = some s1
      ∧ (∀ p, s1.fs p = fs0 p ∨ (fs0 p = none ∧ s1.fs p = some (csvLine header)))
      ∧ s1.writer = some s1.logPath ∧ s1.fs s1.logPath ≠ none
      ∧ s1.logPath = bucketPath (formatMinute packet.Timestamp)
      ∧ s1.currentMinute = formatMinute packet.Timestamp ∧ s1.cache ≠ [] := by
  obtain ⟨key, hkey⟩ := classify_some packet localAddr others
  refine ⟨{ ensureBucket s packet.Timestamp with
      cache := Record (ensureBucket s packet.Timestamp).cache key packet.Length now },
    by simp only [processPacket, hkey], ?_, ?_, ?_, ?_, ?_, Record_ne_nil _ _ _ _⟩
  · intro p
    show (ensureBucket s packet.Timestamp).fs p = fs0 p ∨ _
    by_cases hm : formatMinute packet.Timestamp = s.currentMinute
    · rw [ensureBucket_same s _ hm]
      exact hfs p
    · obtain ⟨_, _, _, _, _, hnew, hother⟩ := ensureBucket_open s _ hm
      by_cases hp : p = bucketPath (formatMinute packet.Timestamp)
      · subst hp
        rw [hnew]
        rcases hfs (bucketPath (formatMinute packet.Timestamp)) with h | ⟨h0, h1⟩
        · cases hold : fs0 (bucketPath (formatMinute packet.Timestamp)) with
          | none =>
            right
            rw [h, hold]
            exact ⟨rfl, rfl⟩
          | some rows =>
            left
            rw [h, hold]
            rfl
        · right
          rw [h1]
          exact ⟨h0, rfl⟩
      · rw [hother p hp]
        exact hfs p
  · show (ensureBucket s packet.Timestamp).writer = some (ensureBucket s packet.Timestamp).logPath
    by_cases hm : formatMinute packet.Timestamp = s.currentMinute
    · rw [ensureBucket_same s _ hm]
      rcases hw with ⟨_, h⟩ | ⟨h, _⟩
      · exact absurd (hm.trans h) (formatMinute_ne_empty _)
      · exact h
    · obtain ⟨h1, _, h3, _⟩ := ensureBucket_open s _ hm
      rw [h1, h3]
  · show (ensureBucket s packet.Timestamp).fs (ensureBucket s packet.Timestamp).logPath ≠ none
    by_cases hm : formatMinute packet.Timestamp = s.currentMinute
    · rw [ensureBucket_same s _ hm]
      rcases hw with ⟨_, h⟩ | ⟨_, h, _⟩
      · exact absurd (hm.trans h) (formatMinute_ne_empty _)
      · exact h
    · obtain ⟨_, _, h3, _, _, hnew, _⟩ := ensureBucket_open s _ hm
      rw [h3, hnew]
      simp
  · show (ensureBucket s packet.Timestamp).logPath = bucketPath (formatMinute packet.Timestamp)
    by_cases hm : formatMinute packet.Timestamp = s.currentMinute
    · rw [ensureBucket_same s _ hm]
      rcases hw with ⟨_, h⟩ | ⟨_, _, h⟩
      · exact absurd (hm.trans h) (formatMinute_ne_empty _)
      · rw [h, hm]
    · exact (ensureBucket_open s _ hm).2.2.1
  · show (ensureBucket s packet.Timestamp).currentMinute = formatMinute packet.Timestamp
    by_cases hm : formatMinute packet.Timestamp = s.currentMinute
    · rw [ensureBucket_same s _ hm, hm]
    · exact (ensureBucket_open s _ hm).2.2.2.1

theorem runPackets_spec (fs0 : FS) (localAddr : String) (others : List String)
    (events : List (Packet × Time)) :
    ∀ s : State, (∀ p, s.fs p = fs0 p ∨ (fs0 p = none ∧ s.fs p = some (csvLine header))) →
      s.writer = some s.logPath → s.fs s.logPath ≠ none →
      s.logPath = bucketPath s.currentMinute → s.cache ≠ [] →
      ∃ s1, runPackets s (localAddr :: others) events = some s1
        ∧ (∀ p, s1.fs p = fs0 p ∨ (fs0 p = none ∧ s1.fs p = some (csvLine header)))
        ∧ s1.writer = some s1.logPath ∧ s1.fs s1.logPath ≠ none
        ∧ s1.logPath = bucketPath s1.currentMinute ∧ s1.cache ≠ []
        ∧ ∀ h : events ≠ [],
            s1.logPath = bucketPath (formatMinute (events.getLast h).1.Timestamp) := by
  induction events with
  | nil =>
    intro s h1 h2 h3 h4 h5
    exact ⟨s, rfl, h1, h2, h3, h4, h5, fun h => absurd rfl h⟩
  | cons ev rest ih =>
    intro s h1 h2 h3 h4 _
    obtain ⟨packet, now⟩ := ev
    obtain ⟨s1, hs1, a1, a2, a3, a4, a5, a6⟩ :=
      processPacket_spec fs0 s localAddr others packet now h1 (Or.inr ⟨h2, h3, h4⟩)
    obtain ⟨s2, hs2, b1, b2, b3, b4, b5, b6⟩ := ih s1 a1 a2 a3 (by rw [a4, a5]) a6
    refine ⟨s2, by simp only [runPackets, hs1, hs2], b1, b2, b3, b4, b5, ?_⟩
    intro _
    cases rest with
    | nil =>
      simp only [runPackets, Option.some.injEq] at hs2
      subst hs2
      simpa using a4
    | cons ev2 rest2 =>
      rw [List.getLast_cons (List.cons_ne_nil ev2 rest2)]
      exact b6 (List.cons_ne_nil ev2 rest2)

theorem runPackets_init (fs0 : FS) (localAddr : String) (others : List String)
    (events : List (Packet × Time)) (hne : events ≠ []) :
    ∃ s1, runPackets (initState fs0) (localAddr :: others) events = some s1
      ∧ (∀ p, s1.fs p = fs0 p ∨ (fs0 p = none ∧ s1.fs p = some (csvLine header)))
      ∧ s1.writer = some s1.logPath ∧ s1.fs s1.logPath ≠ none ∧ s1.cache ≠ []
      ∧ s1.logPath = bucketPath (formatMinute (events.getLast hne).1.Timestamp) := by
  cases events with
  | nil => exact absurd rfl hne
  | cons ev rest =>
    obtain ⟨packet, now⟩ := ev
    obtain ⟨s1, hs1, a1, a2, a3, a4, a5, a6⟩ :=
      processPacket_spec fs0 (initState fs0) localAddr others packet now
        (fun p => Or.inl rfl) (Or.inl ⟨rfl, rfl⟩)
    obtain ⟨s2, hs2, b1, b2, b3, _, b5, b6⟩ :=
      runPackets_spec fs0 localAddr others rest s1 a1 a2 a3 (by rw [a4, a5]) a6
    refine ⟨s2, by simp only [runPackets, hs1, hs2], b1, b2, b3, b5, ?_⟩
    cases rest with
    | nil =>
      simp only [runPackets, Option.some.injEq] at hs2
      subst hs2
      simpa using a4
    | cons ev2 rest2 =>
      rw [List.getLast_cons (List.cons_ne_nil ev2 rest2)]
      exact b6 (List.cons_ne_nil ev2 rest2)

theorem shutdown_spec (s : State) (now : Time) (hw : s.writer = some s.logPath)
    (hc : s.cache ≠ []) :
    (shutdown s now).1.cache = []
      ∧ (shutdown s now).1.fs s.logPath
          = some ((s.fs s.logPath).getD []
              ++ csvLines ((flushLogs s.cache (formatTimestamp now)).map logRow))
      ∧ (shutdown s now).2
          = GenerateSummary (shutdown s now).1.fs s.logPath := by
  refine ⟨?_, ?_, rfl⟩
  · simp only [shutdown, hw]
    exact flushCache_cache _ _ _ _
  · simp only [shutdown, hw]
    rw [flushCache_fs]
    simp [hc]

/-! ## Claims on the cache and on flushCache -/

/-- C1 (amended). From the empty cache, after `Record(k, s₁), …, Record(k, sₙ)`
with `n ≥ 1` and sizes of type `int`, a drain through an open writer emits
exactly one log, with the fields of `k`, whose size is `s₁ + … + sₙ` reduced to
64-bit two's complement; it appends exactly the row of that log, as
`csv.Writer` writes it, to the file of the writer and leaves the cache empty.
When the exact sum is a value of `int` the emitted size is the exact sum. -/
theorem record_same_key_then_drain (k : CacheKey) (recs : List (Int × Time)) (w : String)
    (now : Time) (fs : FS) (hne : recs ≠ []) (hint : ∀ r ∈ recs, IsInt r.1) :
    flushLogs (recordAll [] k recs) (formatTimestamp now)
        = [{ Timestamp := formatTimestamp now, Direction := k.Direction,
             Size := wrapInt (recs.map Prod.fst).sum, IP := k.IP, Port := k.Port }]
      ∧ (recordAll [] k recs).map Prod.fst = [k]
      ∧ (flushCache (recordAll [] k recs) (some w) now fs).1 = []
      ∧ (flushCache (recordAll [] k recs) (some w) now fs).2 w
          = some ((fs w).getD [] ++
              csvLine [formatTimestamp now, k.Direction,
                Itoa (wrapInt (recs.map Prod.fst).sum), k.IP, k.Port])
      ∧ (IsInt (recs.map Prod.fst).sum →
          (flushLogs (recordAll [] k recs) (formatTimestamp now)).map PacketLog.Size
            = [(recs.map Prod.fst).sum]) := by
  obtain ⟨t1, h⟩ := recordAll_empty k recs hne hint
  refine ⟨?_, ?_, flushCache_cache _ _ _ _, ?_, ?_⟩
  · simp [h, flushLogs]
  · simp [h]
  · rw [flushCache_fs]
    simp [h, flushLogs, logRow, csvLines]
  · intro hsum
    simp [h, flushLogs, wrapInt_of_isInt _ hsum]

/-- C1, an instance: sizes 100 and 50 recorded under one key are drained as one
log of size 150. -/
theorem record_same_key_then_drain_witness :
    ([((100 : Int), (⟨2024, 3, 5, 14, 59, 58⟩ : Time)), (50, ⟨2024, 3, 5, 14, 59, 59⟩)]
        ≠ [])
      ∧ (∀ r ∈ [((100 : Int), (⟨2024, 3, 5, 14, 59, 58⟩ : Time)),
          (50, ⟨2024, 3, 5, 14, 59, 59⟩)], IsInt r.1)
      ∧ flushLogs (recordAll [] { Direction := "Upload", IP := "1.1.1.1", Port := "443" }
            [(100, ⟨2024, 3, 5, 14, 59, 58⟩), (50, ⟨2024, 3, 5, 14, 59, 59⟩)])
          (formatTimestamp ⟨2024, 3, 5, 15, 0, 1⟩)
        = [{ Timestamp := "2024/03/05 15:00:01", Direction := "Upload", Size := 150,
             IP := "1.1.1.1", Port := "443" }]
      ∧ (flushCache (recordAll [] { Direction := "Upload", IP := "1.1.1.1", Port := "443" }
            [(100, ⟨2024, 3, 5, 14, 59, 58⟩), (50, ⟨2024, 3, 5, 14, 59, 59⟩)])
          (some "logs/results-2024-03-05-14.csv") ⟨2024, 3, 5, 15, 0, 1⟩ (fun _ => none)).2
          "logs/results-2024-03-05-14.csv"
        = some "2024/03/05 15:00:01,Upload,150,1.1.1.1,443\n".data :=
  ⟨by decide, by decide,
    (record_same_key_then_drain { Direction := "Upload", IP := "1.1.1.1", Port := "443" }
      [(100, ⟨2024, 3, 5, 14, 59, 58⟩), (50, ⟨2024, 3, 5, 14, 59, 59⟩)]
      "logs/results-2024-03-05-14.csv" ⟨2024, 3, 5, 15, 0, 1⟩ (fun _ => none)
      (by decide) (by decide)).1, by decide⟩

/-- C1 as stated fails when the sum leaves the range of `int`: sizes
9223372036854775807 and 1 under one key are drained as -9223372036854775808,
not as their sum. -/
theorem record_same_key_overflow :
    (flushLogs (recordAll [] { Direction := "Upload", IP := "1.1.1.1", Port := "443" }
          [(9223372036854775807, ⟨2024, 3, 5, 14, 59, 58⟩),
            (1, ⟨2024, 3, 5, 14, 59, 59⟩)])
        (formatTimestamp ⟨2024, 3, 5, 15, 0, 1⟩)).map PacketLog.Size
      = [-9223372036854775808]
    ∧ (flushLogs (recordAll [] { Direction := "Upload", IP := "1.1.1.1", Port := "443" }
          [(9223372036854775807, ⟨2024, 3, 5, 14, 59, 58⟩),
            (1, ⟨2024, 3, 5, 14, 59, 59⟩)])
        (formatTimestamp ⟨2024, 3, 5, 15, 0, 1⟩)).map PacketLog.Size
      ≠ [9223372036854775807 + 1] := by
  constructor <;> decide

/-- C8. With a writer open, `flushCache` empties the cache, leaves every other
file as it is and hands to the writer one row per cache entry: the flush time
in the layout `YYYY/MM/DD HH:MM:SS`, the direction of the key, the decimal
`SizeSum`, the IP and the port of the key; what `csv.Writer` writes for these
rows is appended to the file of the writer. The time of every row is the one
flush time, whatever `LastSeen` is. On the empty cache nothing is appended and
the cache stays empty. -/
theorem flushCache_rows (cache : Cache) (w : String) (now : Time) (fs : FS) :
    (flushCache cache (some w) now fs).1 = []
      ∧ (∀ p, p ≠ w → (flushCache cache (some w) now fs).2 p = fs p)
      ∧ (flushLogs cache (formatTimestamp now)).map logRow
          = cache.map (fun ke =>
              [formatTimestamp now, ke.1.Direction, Itoa ke.2.SizeSum, ke.1.IP, ke.1.Port])
      ∧ (cache ≠ [] → (flushCache cache (some w) now fs).2 w
          = some ((fs w).getD [] ++ csvLines (cache.map (fun ke =>
              [formatTimestamp now, ke.1.Direction, Itoa ke.2.SizeSum, ke.1.IP, ke.1.Port]))))
      ∧ (cache.map (fun ke =>
            [formatTimestamp now, ke.1.Direction, Itoa ke.2.SizeSum, ke.1.IP,
              ke.1.Port])).length = cache.length
      ∧ flushCache [] (some w) now fs = ([], fs) := by
  have hrows : (flushLogs cache (formatTimestamp now)).map logRow
      = cache.map (fun ke =>
          [formatTimestamp now, ke.1.Direction, Itoa ke.2.SizeSum, ke.1.IP, ke.1.Port]) := by
    simp [flushLogs, logRow, Function.comp_def]
  refine ⟨flushCache_cache _ _ _ _, ?_, hrows, ?_, by simp, ?_⟩
  · intro p hp
    rw [flushCache_fs]
    simp [hp]
  · intro hne
    rw [flushCache_fs, hrows]
    simp [hne]
  · simp [flushCache, flushLogs]

/-- C9. With a nil writer `flushCache` returns at once: no file changes and the
cache keeps every entry. -/
theorem flushCache_nil_writer (cache : Cache) (now : Time) (fs : FS) :
    flushCache cache none now fs = (cache, fs) := rfl

theorem foldl_cacheStep_recorded (w : String) (steps : List CacheStep) :
    ∀ t : Trace, (steps.foldl (cacheStep w) t).recorded = t.recorded ++ stepSizes steps := by
  induction steps with
  | nil => intro t; simp [stepSizes]
  | cons st rest ih =>
    intro t
    rw [List.foldl_cons, ih]
    cases st <;> simp [cacheStep, stepSizes]

/-- C2 (amended). From the empty cache, after any sequence of atomic `record`
and `drain` steps (writer open), the sizes emitted by the drains so far plus the
sizes still held in the cache equal the sizes recorded so far modulo 2^64 (as
64-bit two's-complement values); they are equal exactly when no size is
negative and the recorded sizes sum to at most the largest `int`. A sequence
that ends with a drain leaves the cache empty, so then the drained sizes alone
account for the recorded ones in the same two senses. -/
theorem drains_account_for_records (w : String) (fs : FS) (steps : List CacheStep) :
    wrapInt (drainedSum (runCache w fs steps) + heldSum (runCache w fs steps).cache)
        = wrapInt (stepSizes steps).sum
      ∧ ((∀ s ∈ stepSizes steps, 0 ≤ s) → (stepSizes steps).sum ≤ maxInt →
          drainedSum (runCache w fs steps) + heldSum (runCache w fs steps).cache
            = (stepSizes steps).sum)
      ∧ (∀ steps0 now, steps = steps0 ++ [CacheStep.drain now] →
          (runCache w fs steps).cache = []
            ∧ wrapInt (drainedSum (runCache w fs steps)) = wrapInt (stepSizes steps).sum
            ∧ ((∀ s ∈ stepSizes steps, 0 ≤ s) → (stepSizes steps).sum ≤ maxInt →
                drainedSum (runCache w fs steps) = (stepSizes steps).sum))
      ∧ (runCache w fs steps).recorded = stepSizes steps := by
  have hwrap : wrapInt (drainedSum (runCache w fs steps)
        + heldSum (runCache w fs steps).cache) = wrapInt (stepSizes steps).sum := by
    have h := foldl_cacheStep_wrap w steps { cache := [], fs := fs, drained := [], recorded := [] }
    simpa [runCache, drainedSum, heldSum] using h
  have hexact : (∀ s ∈ stepSizes steps, 0 ≤ s) → (stepSizes steps).sum ≤ maxInt →
      drainedSum (runCache w fs steps) + heldSum (runCache w fs steps).cache
        = (stepSizes steps).sum := by
    intro hs hb
    have h := foldl_cacheStep_exact w steps
      { cache := [], fs := fs, drained := [], recorded := [] } (by simp) hs
      (by simpa [heldSum] using hb)
    simpa [runCache, drainedSum, heldSum] using h
  refine ⟨hwrap, hexact, ?_, ?_⟩
  · intro steps0 now hsteps
    have hc : (runCache w fs steps).cache = [] := by
      rw [hsteps, runCache_snoc]
      simp [cacheStep, flushCache_cache]
    refine ⟨hc, ?_, ?_⟩
    · simpa [hc, heldSum] using hwrap
    · intro hs hb
      simpa [hc, heldSum] using hexact hs hb
  · have h := foldl_cacheStep_recorded w steps
      { cache := [], fs := fs, drained := [], recorded := [] }
    simpa [runCache] using h

/-- C2 as stated fails when an entry overflows: after recording
9223372036854775807 and 1 under one key and draining, the drained sizes sum to
-9223372036854775808 and the cache is empty, while 9223372036854775808 was
recorded. -/
theorem drains_lose_overflow :
    drainedSum (runCache "logs/results-2024-03-05-14.csv" (fun _ => none)
        [CacheStep.record { Direction := "Upload", IP := "1.1.1.1", Port := "443" }
            9223372036854775807 ⟨2024, 3, 5, 14, 59, 58⟩,
          CacheStep.record { Direction := "Upload", IP := "1.1.1.1", Port := "443" }
            1 ⟨2024, 3, 5, 14, 59, 59⟩,
          CacheStep.drain ⟨2024, 3, 5, 15, 0, 1⟩])
      + heldSum (runCache "logs/results-2024-03-05-14.csv" (fun _ => none)
        [CacheStep.record { Direction := "Upload", IP := "1.1.1.1", Port := "443" }
            9223372036854775807 ⟨2024, 3, 5, 14, 59, 58⟩,
          CacheStep.record { Direction := "Upload", IP := "1.1.1.1", Port := "443" }
            1 ⟨2024, 3, 5, 14, 59, 59⟩,
          CacheStep.drain ⟨2024, 3, 5, 15, 0, 1⟩]).cache
      = -9223372036854775808
    ∧ (stepSizes
        [CacheStep.record { Direction := "Upload", IP := "1.1.1.1", Port := "443" }
            9223372036854775807 ⟨2024, 3, 5, 14, 59, 58⟩,
          CacheStep.record { Direction := "Upload", IP := "1.1.1.1", Port := "443" }
            1 ⟨2024, 3, 5, 14, 59, 59⟩,
          CacheStep.drain ⟨2024, 3, 5, 15, 0, 1⟩]).sum = 9223372036854775808 := by
  constructor <;> decide

/-! ## Claims on classification and on bucket labels -/

/-- C3 (amended). On a device with a local address, a packet that lacks its
network layer or its transport layer gets the key ("unknown", "unknown",
"unknown"); a packet with both gets ("Upload", destination address, destination
port) when its source address is the local address and ("Download", source
address, source port) otherwise. -/
theorem classify_flow (packet : Packet) (localAddr : String) (others : List String) :
    (packet.TransportLayer = none →
        classify packet (localAddr :: others) = some unknownKey)
      ∧ (packet.NetworkLayer = none →
        classify packet (localAddr :: others) = some unknownKey)
      ∧ (∀ srcIP dstIP srcPort dstPort,
          packet.NetworkLayer = some (srcIP, dstIP) →
          packet.TransportLayer = some (srcPort, dstPort) →
          classify packet (localAddr :: others)
            = some (if srcIP = localAddr then
                { Direction := "Upload", IP := dstIP, Port := dstPort }
              else { Direction := "Download", IP := srcIP, Port := srcPort }))
      ∧ unknownKey = { Direction := "unknown", IP := "unknown", Port := "unknown" } := by
  refine ⟨?_, ?_, ?_, rfl⟩
  · intro h
    unfold classify
    rw [h]
    cases packet.NetworkLayer with
    | none => rfl
    | some p => rfl
  · intro h
    unfold classify
    rw [h]
  · intro srcIP dstIP srcPort dstPort hn ht
    unfold classify
    rw [hn, ht]
    by_cases h : srcIP = localAddr <;> simp [h]

/-- C3 as stated fails on a packet with transport-layer ports and no network
layer: the claim makes it a download from port 5000, the code gives the unknown
key. -/
theorem classify_without_network_layer :
    classify
        { Timestamp := ⟨2024, 3, 5, 14, 59, 59⟩, Length := 60, NetworkLayer := none,
          TransportLayer := some ("5000", "443") } ["10.0.0.1"]
      = some { Direction := "unknown", IP := "unknown", Port := "unknown" }
    ∧ (specClassify
        { Timestamp := ⟨2024, 3, 5, 14, 59, 59⟩, Length := 60, NetworkLayer := none,
          TransportLayer := some ("5000", "443") } "10.0.0.1").Direction = "Download"
    ∧ classify
        { Timestamp := ⟨2024, 3, 5, 14, 59, 59⟩, Length := 60, NetworkLayer := none,
          TransportLayer := some ("5000", "443") } ["10.0.0.1"]
      ≠ some (specClassify
        { Timestamp := ⟨2024, 3, 5, 14, 59, 59⟩, Length := 60, NetworkLayer := none,
          TransportLayer := some ("5000", "443") } "10.0.0.1") := by
  refine ⟨by decide, by decide, by decide⟩

/-- C7. The bucket label is the rendering year-month-day-hour of the event
time, each part zero-padded (13 characters for a year 0..9999), and the bucket
path is `logs/results-<label>.csv`. Two event times have the same label, and
the same path, exactly when they agree on year, month, day and hour. Event times
of one day in hour 14 and in hour 15 (so 14:59:59 and 15:00:01) get labels that
end in `-14` and `-15` after a common date part, and distinct paths. -/
theorem bucket_label (t1 t2 : Time) :
    formatMinute t1
        = String.mk (appendInt t1.year 4 ++ ['-'] ++ appendInt t1.month.val 2 ++ ['-']
            ++ appendInt t1.day.val 2 ++ ['-'] ++ appendInt t1.hour.val 2)
      ∧ (0 ≤ t1.year → t1.year ≤ 9999 → (formatMinute t1).length = 13)
      ∧ bucketPath (formatMinute t1) = "logs/results-" ++ formatMinute t1 ++ ".csv"
      ∧ (formatMinute t1 = formatMinute t2
          ↔ t1.year = t2.year ∧ t1.month = t2.month ∧ t1.day = t2.day ∧ t1.hour = t2.hour)
      ∧ (bucketPath (formatMinute t1) = bucketPath (formatMinute t2)
          ↔ t1.year = t2.year ∧ t1.month = t2.month ∧ t1.day = t2.day ∧ t1.hour = t2.hour)
      ∧ (t1.year = t2.year → t1.month = t2.month → t1.day = t2.day →
          t1.hour = 14 → t2.hour = 15 →
          ∃ date : String, formatMinute t1 = date ++ "-14" ∧ formatMinute t2 = date ++ "-15"
            ∧ formatMinute t1 ≠ formatMinute t2
            ∧ bucketPath (formatMinute t1) ≠ bucketPath (formatMinute t2)) := by
  refine ⟨?_, ?_, ?_, formatMinute_eq_iff t1 t2, ?_, ?_⟩
  · simp [formatMinute, minuteChars]
  · intro h0 h1
    have ly := appendInt_year_length t1.year h0 h1
    have lm := appendInt_two_length t1.month.val (by omega)
    have ld := appendInt_two_length t1.day.val (by omega)
    have lh := appendInt_two_length t1.hour.val (by omega)
    simp [formatMinute, minuteChars, String.length, ly, lm, ld, lh]
  · apply String.ext
    simp [bucketPath, String.data_append]
  · rw [bucketPath_eq_iff, formatMinute_eq_iff]
  · intro hy hm hd h14 h15
    refine ⟨String.mk (appendInt t1.year 4 ++ '-' :: (appendInt t1.month.val 2 ++ '-' ::
      appendInt t1.day.val 2)), ?_, ?_, ?_, ?_⟩
    · apply String.ext
      simp only [formatMinute, minuteChars, String.data_append, h14]
      have : appendInt ((14 : Fin 24).val : Int) 2 = ['1', '4'] := by decide
      rw [this]
      simp
    · apply String.ext
      simp only [formatMinute, minuteChars, String.data_append, h15, ← hy, ← hm, ← hd]
      have : appendInt ((15 : Fin 24).val : Int) 2 = ['1', '5'] := by decide
      rw [this]
      simp
    · intro h
      have := ((formatMinute_eq_iff t1 t2).mp h).2.2.2
      rw [h14, h15] at this
      exact absurd this (by decide)
    · intro h
      have := ((formatMinute_eq_iff t1 t2).mp ((bucketPath_eq_iff _ _).mp h)).2.2.2
      rw [h14, h15] at this
      exact absurd this (by decide)

/-! ## Claims on the summary -/

/-- C4 (amended). For a header row followed by at least one data row, each data
row with at least 4 fields, `GenerateSummary` reports: as Total Uploaded the sum,
over the data rows whose direction field is exactly "Upload", of the value
`strconv.Atoi` returns for the byte-count field, reduced to 64-bit two's
complement; as Total Downloaded the same over the rows with direction
"Download"; rows with another direction add to neither; the counter of each IP
is the number of data rows with that IP. The value of `Atoi` is the decimal
integer of the field, or 0 when the field does not parse, unless `Atoi` reports
a range error, and then it is the largest or the smallest `int`; so when no
field has a range error and the exact sums are values of `int`, the totals are
the sums the specification words. -/
theorem summary_totals (hdr : Row) (data : List Row) (hne : data ≠ [])
    (hlen : ∀ row ∈ data, 4 ≤ row.length) :
    ∃ r, summarizeRecords (hdr :: data) = SummaryOutcome.report r
      ∧ r.uploadTotal = wrapInt (directionTotal (fun s => (Atoi s).1) "Upload" data)
      ∧ r.downloadTotal = wrapInt (directionTotal (fun s => (Atoi s).1) "Download" data)
      ∧ (∀ ip, hits r.ipCounter ip = ipRows ip data)
      ∧ (∀ s, ((Atoi s).2 ≠ NumError.range → (Atoi s).1 = specParse s)
          ∧ ((Atoi s).2 = NumError.range → (Atoi s).1 = maxInt ∨ (Atoi s).1 = minInt))
      ∧ ((∀ row ∈ data, (Atoi (row.getD 2 "")).2 ≠ NumError.range) →
          (IsInt (directionTotal specParse "Upload" data) →
            r.uploadTotal = directionTotal specParse "Upload" data)
          ∧ (IsInt (directionTotal specParse "Download" data) →
            r.downloadTotal = directionTotal specParse "Download" data)) := by
  obtain ⟨r, hr, h1, h2, h3⟩ := summarizeRecords_spec hdr data hne hlen
  refine ⟨r, hr, h1, h2, h3, ?_, ?_⟩
  · intro s
    exact ⟨Atoi_eq_specParse s, Atoi_range_value s⟩
  · intro hrange
    have e : ∀ d, directionTotal (fun s => (Atoi s).1) d data = directionTotal specParse d data :=
      fun d => directionTotal_congr _ _ d data (fun row hrow => Atoi_eq_specParse _ (hrange row hrow))
    refine ⟨?_, ?_⟩
    · intro hi
      rw [h1, e, wrapInt_of_isInt _ hi]
    · intro hi
      rw [h2, e, wrapInt_of_isInt _ hi]

/-- C4, the instance of the specification: rows (Upload, 100, 1.1.1.1),
(Upload, 50, 1.1.1.1), (Download, 20, 2.2.2.2) give 150 uploaded, 20 downloaded
and the counters 1.1.1.1: 2, 2.2.2.2: 1. -/
theorem summary_totals_witness :
    ([["2024/03/05 15:00:01", "Upload", "100", "1.1.1.1", "443"],
        ["2024/03/05 15:00:01", "Upload", "50", "1.1.1.1", "80"],
        ["2024/03/05 15:00:01", "Download", "20", "2.2.2.2", "443"]] ≠ ([] : List Row))
      ∧ (∀ row ∈ ([["2024/03/05 15:00:01", "Upload", "100", "1.1.1.1", "443"],
        ["2024/03/05 15:00:01", "Upload", "50", "1.1.1.1", "80"],
        ["2024/03/05 15:00:01", "Download", "20", "2.2.2.2", "443"]] : List Row),
          4 ≤ row.length)
      ∧ ∃ r, summarizeRecords (header ::
          [["2024/03/05 15:00:01", "Upload", "100", "1.1.1.1", "443"],
            ["2024/03/05 15:00:01", "Upload", "50", "1.1.1.1", "80"],
            ["2024/03/05 15:00:01", "Download", "20", "2.2.2.2", "443"]])
            = SummaryOutcome.report r
          ∧ r.uploadTotal = 150 ∧ r.downloadTotal = 20
          ∧ hits r.ipCounter "1.1.1.1" = 2 ∧ hits r.ipCounter "2.2.2.2" = 1 := by
  refine ⟨by decide, by decide, ?_⟩
  obtain ⟨r, h, hu, hd, hh, _⟩ := summary_totals header
    [["2024/03/05 15:00:01", "Upload", "100", "1.1.1.1", "443"],
      ["2024/03/05 15:00:01", "Upload", "50", "1.1.1.1", "80"],
      ["2024/03/05 15:00:01", "Download", "20", "2.2.2.2", "443"]] (by decide) (by decide)
  refine ⟨r, h, ?_, ?_, ?_, ?_⟩
  · rw [hu]; decide
  · rw [hd]; decide
  · rw [hh]; decide
  · rw [hh]; decide

/-- C4 as stated fails on a byte-count field whose digits overflow: the field
"99999999999999999999x" does not parse, the claim counts it as 0, and the code
adds 9223372036854775807 to Total Uploaded. -/
theorem summary_counts_overflowing_field :
    summarizeRecords
        [header, ["2024/03/05 15:00:01", "Upload", "99999999999999999999x", "1.1.1.1", "443"]]
      = SummaryOutcome.report
          { uploadTotal := 9223372036854775807, downloadTotal := 0,
            ipCounter := [("1.1.1.1", 1)] }
    ∧ specParse "99999999999999999999x" = 0
    ∧ directionTotal specParse "Upload"
        [["2024/03/05 15:00:01", "Upload", "99999999999999999999x", "1.1.1.1", "443"]] = 0 := by
  refine ⟨by decide, by decide, by decide⟩

/-- C10 (amended). When a bucket file is newly created (so holds the header
only), a non-empty cache of `int` sizes is flushed into it and `GenerateSummary`
scans it, the file is what `csv.Writer` writes for the header followed by one
row per cache entry, `csv.Reader` returns these rows with every carriage return
before a line feed removed from their fields, and the report gives: as Total
Uploaded the sum of `SizeSum` over the entries with direction "Upload", reduced
to 64-bit two's complement, so the exact sum whenever that is a value of `int`;
likewise Total Downloaded for "Download"; as counter of each IP the number of
cache keys whose IP is read back as that IP, which is the number of cache keys
with that IP when no IP of a key holds a carriage return followed by a line
feed. `Atoi (Itoa n)` is `n` without error for every `int` `n`, negative ones
included. -/
theorem flush_then_summarise (s : State) (ts now : Time)
    (hopen : formatMinute ts ≠ s.currentMinute)
    (hnew : s.fs (bucketPath (formatMinute ts)) = none)
    (hne : s.cache ≠ [])
    (hint : ∀ ke ∈ s.cache, IsInt ke.2.SizeSum) :
    ∃ r, GenerateSummary (periodicFlush (ensureBucket s ts) now).fs
          (ensureBucket s ts).logPath = SummaryOutcome.report r
      ∧ (periodicFlush (ensureBucket s ts) now).fs (ensureBucket s ts).logPath
          = some (csvLines (header :: s.cache.map (fun ke =>
              [formatTimestamp now, ke.1.Direction, Itoa ke.2.SizeSum, ke.1.IP, ke.1.Port])))
      ∧ ReadAll (csvLines (header :: s.cache.map (fun ke =>
              [formatTimestamp now, ke.1.Direction, Itoa ke.2.SizeSum, ke.1.IP, ke.1.Port])))
          = some (header :: s.cache.map (fun ke =>
              [formatTimestamp now, readBack ke.1.Direction, Itoa ke.2.SizeSum,
                readBack ke.1.IP, readBack ke.1.Port]))
      ∧ r.uploadTotal = wrapInt (cacheTotal "Upload" s.cache)
      ∧ r.downloadTotal = wrapInt (cacheTotal "Download" s.cache)
      ∧ (IsInt (cacheTotal "Upload" s.cache) → r.uploadTotal = cacheTotal "Upload" s.cache)
      ∧ (IsInt (cacheTotal "Download" s.cache) →
          r.downloadTotal = cacheTotal "Download" s.cache)
      ∧ (∀ ip, hits r.ipCounter ip = keysReadAsIP ip s.cache)
      ∧ ((∀ ke ∈ s.cache, hasCRLF ke.1.IP.data = false) →
          ∀ ip, hits r.ipCounter ip = keysWithIP ip s.cache)
      ∧ (∀ n, IsInt n → Atoi (Itoa n) = (n, NumError.ok)) := by
  obtain ⟨hw, _, hp, _, hc, hfs, _⟩ := ensureBucket_open s ts hopen
  have hrowsEq : (flushLogs s.cache (formatTimestamp now)).map logRow
      = s.cache.map (fun ke =>
          [formatTimestamp now, ke.1.Direction, Itoa ke.2.SizeSum, ke.1.IP, ke.1.Port]) := by
    simp [flushLogs, logRow, Function.comp_def]
  have hfile : (periodicFlush (ensureBucket s ts) now).fs (ensureBucket s ts).logPath
      = some (csvLines (header :: (flushLogs s.cache (formatTimestamp now)).map logRow)) := by
    simp only [periodicFlush, hw, hp, hc]
    rw [flushCache_fs, hfs, hnew]
    simp [hne, csvLines]
  have hrows : ∀ row ∈ (flushLogs s.cache (formatTimestamp now)).map logRow,
      row.length = 5 := by
    intro row hrow
    obtain ⟨log, _, rfl⟩ := List.mem_map.mp hrow
    rfl
  have hdata : (flushLogs s.cache (formatTimestamp now)).map logRow ≠ [] := by
    simpa [flushLogs] using hne
  obtain ⟨r, hr, h1, h2, h3⟩ := GenerateSummary_csvLines _ _ header
    ((flushLogs s.cache (formatTimestamp now)).map logRow) hfile hdata rfl hrows
  rw [directionTotal_flushLogs _ _ _ (by decide) hint] at h1 h2
  have hcount : ∀ ip, hits r.ipCounter ip = keysReadAsIP ip s.cache := by
    intro ip
    rw [h3 ip, ipRows_flushLogs]
  refine ⟨r, hr, ?_, ?_, h1, h2, ?_, ?_, hcount, ?_, Atoi_Itoa⟩
  · rw [hfile, hrowsEq]
  · rw [← hrowsEq, ReadAll_csvLines header _ (by decide)
      (fun row hrow => by rw [hrows row hrow]; rfl)]
    have hts : readBack (formatTimestamp now) = formatTimestamp now := by
      apply String.ext
      apply crlf_plain
      intro c hc hcr
      subst hcr
      exact absurd (formatTimestamp_no_cr now hc) (by simp)
    have hh : header.map readBack = header := by decide
    simp [flushLogs, logRow, Function.comp_def, readBack_Itoa, hts, hh]
  · intro hi
    rw [h1, wrapInt_of_isInt _ hi]
  · intro hi
    rw [h2, wrapInt_of_isInt _ hi]
  · intro hplain ip
    rw [hcount ip, keysReadAsIP_eq ip s.cache hplain]

/-- C10, an instance: an upload of 100 bytes and a download of 20 bytes flushed
to a new bucket file are reported as 100 uploaded and 20 downloaded. -/
theorem flush_then_summarise_witness :
    (formatMinute ⟨2024, 3, 5, 14, 59, 59⟩ ≠ "")
      ∧ ((fun _ => none : FS) (bucketPath (formatMinute ⟨2024, 3, 5, 14, 59, 59⟩)) = none)
      ∧ ([(({ Direction := "Upload", IP := "1.1.1.1", Port := "443" } : CacheKey),
            ({ SizeSum := 100, LastSeen := ⟨2024, 3, 5, 14, 59, 58⟩ } : CacheEntry)),
          ({ Direction := "Download", IP := "2.2.2.2", Port := "80" },
            { SizeSum := 20, LastSeen := ⟨2024, 3, 5, 14, 59, 59⟩ })] ≠ [])
      ∧ (∀ ke ∈ [(({ Direction := "Upload", IP := "1.1.1.1", Port := "443" } : CacheKey),
            ({ SizeSum := 100, LastSeen := ⟨2024, 3, 5, 14, 59, 58⟩ } : CacheEntry)),
          ({ Direction := "Download", IP := "2.2.2.2", Port := "80" },
            { SizeSum := 20, LastSeen := ⟨2024, 3, 5, 14, 59, 59⟩ })], IsInt ke.2.SizeSum)
      ∧ (periodicFlush (ensureBucket
            { currentMinute := "", logFile := none, writer := none, logPath := "",
              cache := [({ Direction := "Upload", IP := "1.1.1.1", Port := "443" },
                  { SizeSum := 100, LastSeen := ⟨2024, 3, 5, 14, 59, 58⟩ }),
                ({ Direction := "Download", IP := "2.2.2.2", Port := "80" },
                  { SizeSum := 20, LastSeen := ⟨2024, 3, 5, 14, 59, 59⟩ })],
              fs := fun _ => none } ⟨2024, 3, 5, 14, 59, 59⟩) ⟨2024, 3, 5, 15, 0, 1⟩).fs
          "logs/results-2024-03-05-14.csv"
        = some ("Timestamp,Direction,Size(Bytes),IP,Port\n"
            ++ "2024/03/05 15:00:01,Upload,100,1.1.1.1,443\n"
            ++ "2024/03/05 15:00:01,Download,20,2.2.2.2,80\n").data
      ∧ ∃ r, GenerateSummary
          (periodicFlush (ensureBucket
            { currentMinute := "", logFile := none, writer := none, logPath := "",
              cache := [({ Direction := "Upload", IP := "1.1.1.1", Port := "443" },
                  { SizeSum := 100, LastSeen := ⟨2024, 3, 5, 14, 59, 58⟩ }),
                ({ Direction := "Download", IP := "2.2.2.2", Port := "80" },
                  { SizeSum := 20, LastSeen := ⟨2024, 3, 5, 14, 59, 59⟩ })],
              fs := fun _ => none } ⟨2024, 3, 5, 14, 59, 59⟩) ⟨2024, 3, 5, 15, 0, 1⟩).fs
          "logs/results-2024-03-05-14.csv" = SummaryOutcome.report r
        ∧ r.uploadTotal = 100 ∧ r.downloadTotal = 20
        ∧ hits r.ipCounter "1.1.1.1" = 1 ∧ hits r.ipCounter "2.2.2.2" = 1 := by
  refine ⟨by decide, rfl, by decide, by decide, by decide, ?_⟩
  obtain ⟨r, h, _, _, hu, hd, _, _, hh, _⟩ := flush_then_summarise
    { currentMinute := "", logFile := none, writer := none, logPath := "",
      cache := [({ Direction := "Upload", IP := "1.1.1.1", Port := "443" },
          { SizeSum := 100, LastSeen := ⟨2024, 3, 5, 14, 59, 58⟩ }),
        ({ Direction := "Download", IP := "2.2.2.2", Port := "80" },
          { SizeSum := 20, LastSeen := ⟨2024, 3, 5, 14, 59, 59⟩ })],
      fs := fun _ => none } ⟨2024, 3, 5, 14, 59, 59⟩ ⟨2024, 3, 5, 15, 0, 1⟩
    (by decide) rfl (by decide) (by decide)
  exact ⟨r, h, by rw [hu]; decide, by rw [hd]; decide, by rw [hh]; decide,
    by rw [hh]; decide⟩

/-- C10 as stated fails in two ways. When the sizes of one direction overflow:
entries of 9223372036854775807 and 1 bytes, both uploads, are reported as
-9223372036854775808 uploaded, not as their sum. When the IP of a key holds a
carriage return before a line feed: of two keys with the IPs "a\r\nb" and
"a\nb" the first is read back as "a\nb", so the counters are 0 and 2, not 1
and 1. -/
theorem flush_then_summarise_fails :
    GenerateSummary
        (periodicFlush (ensureBucket
          { currentMinute := "", logFile := none, writer := none, logPath := "",
            cache := [({ Direction := "Upload", IP := "1.1.1.1", Port := "443" },
                { SizeSum := 9223372036854775807, LastSeen := ⟨2024, 3, 5, 14, 59, 58⟩ }),
              ({ Direction := "Upload", IP := "2.2.2.2", Port := "443" },
                { SizeSum := 1, LastSeen := ⟨2024, 3, 5, 14, 59, 59⟩ })],
            fs := fun _ => none } ⟨2024, 3, 5, 14, 59, 59⟩) ⟨2024, 3, 5, 15, 0, 1⟩).fs
        "logs/results-2024-03-05-14.csv"
      = SummaryOutcome.report
          { uploadTotal := -9223372036854775808, downloadTotal := 0,
            ipCounter := [("1.1.1.1", 1), ("2.2.2.2", 1)] }
    ∧ cacheTotal "Upload"
        [({ Direction := "Upload", IP := "1.1.1.1", Port := "443" },
            { SizeSum := 9223372036854775807, LastSeen := ⟨2024, 3, 5, 14, 59, 58⟩ }),
          ({ Direction := "Upload", IP := "2.2.2.2", Port := "443" },
            { SizeSum := 1, LastSeen := ⟨2024, 3, 5, 14, 59, 59⟩ })]
      = 9223372036854775808
    ∧ GenerateSummary
        (periodicFlush (ensureBucket
          { currentMinute := "", logFile := none, writer := none, logPath := "",
            cache := [({ Direction := "Upload", IP := "a\r\nb", Port := "443" },
                { SizeSum := 1, LastSeen := ⟨2024, 3, 5, 14, 59, 58⟩ }),
              ({ Direction := "Upload", IP := "a\nb", Port := "443" },
                { SizeSum := 2, LastSeen := ⟨2024, 3, 5, 14, 59, 59⟩ })],
            fs := fun _ => none } ⟨2024, 3, 5, 14, 59, 59⟩) ⟨2024, 3, 5, 15, 0, 1⟩).fs
        "logs/results-2024-03-05-14.csv"
      = SummaryOutcome.report
          { uploadTotal := 3, downloadTotal := 0, ipCounter := [("a\nb", 2)] }
    ∧ keysWithIP "a\r\nb"
        [({ Direction := "Upload", IP := "a\r\nb", Port := "443" },
            { SizeSum := 1, LastSeen := ⟨2024, 3, 5, 14, 59, 58⟩ }),
          ({ Direction := "Upload", IP := "a\nb", Port := "443" },
            { SizeSum := 2, LastSeen := ⟨2024, 3, 5, 14, 59, 59⟩ })] = 1 := by
  refine ⟨by decide, by decide, by decide, by decide⟩

/-! ## Headers in bucket files -/

theorem Itoa_ne_sizeHeader (i : Int) : Itoa i ≠ "Size(Bytes)" := by
  intro h
  have h1 := congrArg String.data h
  unfold Itoa at h1
  have hS : ¬ ('S' ∈ decimal i.natAbs) := fun hmem =>
    absurd (decimal_digits _ _ hmem) (by decide)
  by_cases hneg : i < 0
  · simp only [hneg, if_true] at h1
    have := (List.cons.inj h1).1
    exact absurd this (by decide)
  · simp only [hneg, if_false] at h1
    apply hS
    rw [h1]
    exact List.mem_cons_self _ _

theorem logRow_readBack_ne_header (log : PacketLog) :
    (logRow log).map readBack ≠ header := by
  intro h
  have h1 : readBack (Itoa log.Size) = "Size(Bytes)" := by
    simp only [logRow, header, List.map_cons, List.cons.injEq] at h
    exact h.2.2.1
  rw [readBack_Itoa] at h1
  exact Itoa_ne_sizeHeader _ h1

theorem header_readBack : header.map readBack = header := by decide

theorem csvLine_header : csvLine header = "Timestamp,Direction,Size(Bytes),IP,Port\n".data := by
  decide

theorem csvLine_logRow_ne_header (log : PacketLog) : csvLine (logRow log) ≠ csvLine header := by
  intro h
  have e : csvLines [logRow log] = csvLines [header] := by
    simp only [csvLines, h]
  have h1 := ReadAll_csvLines (logRow log) [] (Nat.le_of_ble_eq_true rfl) (by simp)
  have h2 := ReadAll_csvLines header [] (by decide) (by simp)
  rw [e, h2] at h1
  simp only [List.map_cons, List.map_nil, Option.some.injEq, List.cons.injEq, and_true] at h1
  exact logRow_readBack_ne_header log (h1.symm.trans header_readBack)

theorem grows_refl (a : Option (List Char)) : Grows a a := by
  cases a with
  | none => exact Or.inl rfl
  | some content => exact ⟨[], by simp [csvLines]⟩

theorem grows_trans (a b c : Option (List Char)) (h1 : Grows a b) (h2 : Grows b c) :
    Grows a c := by
  cases a with
  | some content =>
    obtain ⟨logs1, hb⟩ := h1
    subst hb
    obtain ⟨logs2, hc⟩ := h2
    exact ⟨logs1 ++ logs2, by rw [hc, List.map_append, csvLines_append, List.append_assoc]⟩
  | none =>
    rcases h1 with hb | ⟨logs1, hb⟩
    · subst hb
      exact h2
    · subst hb
      obtain ⟨logs2, hc⟩ := h2
      exact Or.inr ⟨logs1 ++ logs2,
        by rw [hc, List.map_append, ← List.cons_append, csvLines_append]⟩

theorem ensureBucket_grows (s : State) (ts : Time) (p : String) :
    Grows (s.fs p) ((ensureBucket s ts).fs p) := by
  by_cases h : formatMinute ts = s.currentMinute
  · rw [ensureBucket_same s ts h]
    exact grows_refl _
  · obtain ⟨_, _, _, _, _, hfs, hother⟩ := ensureBucket_open s ts h
    by_cases hp : p = bucketPath (formatMinute ts)
    · subst hp
      rw [hfs]
      cases hold : s.fs (bucketPath (formatMinute ts)) with
      | none => exact Or.inr ⟨[], by simp [csvLines]⟩
      | some content => exact ⟨[], by simp [csvLines]⟩
    · rw [hother p hp]
      exact grows_refl _

theorem ensureBucket_writer (s : State) (ts : Time)
    (h : ∀ w, s.writer = some w → s.fs w ≠ none) :
    ∀ w, (ensureBucket s ts).writer = some w → (ensureBucket s ts).fs w ≠ none := by
  by_cases hm : formatMinute ts = s.currentMinute
  · rw [ensureBucket_same s ts hm]
    exact h
  · obtain ⟨hw, _, _, _, _, hfs, _⟩ := ensureBucket_open s ts hm
    intro w hw1
    rw [hw] at hw1
    cases hw1
    rw [hfs]
    simp

theorem periodicFlush_grows (s : State) (now : Time) (p : String)
    (h : ∀ w, s.writer = some w → s.fs w ≠ none) :
    Grows (s.fs p) ((periodicFlush s now).fs p)
      ∧ ∀ w, (periodicFlush s now).writer = some w → (periodicFlush s now).fs w ≠ none := by
  cases hw : s.writer with
  | none =>
    have e : (periodicFlush s now).fs = s.fs := by
      simp [periodicFlush, hw, flushCache]
    rw [e]
    exact ⟨grows_refl _, h⟩
  | some w =>
    have hex := h w hw
    have hfs : ∀ q, (periodicFlush s now).fs q
        = if q = w ∧ s.cache ≠ [] then
            some ((s.fs w).getD []
              ++ csvLines ((flushLogs s.cache (formatTimestamp now)).map logRow))
          else s.fs q := by
      intro q
      simp only [periodicFlush, hw]
      exact flushCache_fs _ _ _ _ _
    refine ⟨?_, ?_⟩
    · rw [hfs p]
      by_cases hc : p = w ∧ s.cache ≠ []
      · rw [if_pos hc, hc.1]
        cases hold : s.fs w with
        | none => exact absurd hold hex
        | some content => exact ⟨flushLogs s.cache (formatTimestamp now), by simp⟩
      · simp only [hc, if_false]
        exact grows_refl _
    · intro w1 hw1
      have : w1 = w := by
        have : (periodicFlush s now).writer = s.writer := rfl
        rw [this, hw] at hw1
        exact (Option.some.inj hw1).symm
      subst this
      rw [hfs w1]
      split
      · simp
      · exact hex

theorem run_grows (ops : List Op) (p : String) :
    ∀ s : State, (∀ w, s.writer = some w → s.fs w ≠ none) →
      Grows (s.fs p) ((run s ops).fs p) := by
  induction ops with
  | nil => intro s _; exact grows_refl _
  | cons op rest ih =>
    intro s h
    have hrun : run s (op :: rest) = run (applyOp s op) rest := rfl
    rw [hrun]
    cases op with
    | ensure ts =>
      exact grows_trans _ _ _ (ensureBucket_grows s ts p)
        (ih _ (ensureBucket_writer s ts h))
    | record key size now =>
      exact ih (applyOp s (Op.record key size now)) h
    | flush now =>
      obtain ⟨h1, h2⟩ := periodicFlush_grows s now p h
      exact grows_trans _ _ _ h1 (ih _ h2)

/-- C5. The header is the row `Timestamp, Direction, Size(Bytes), IP, Port`,
written by `csv.Writer` as the line `Timestamp,Direction,Size(Bytes),IP,Port`.
Opening a bucket file appends it exactly when the file did not exist at that
moment: a bucket switch leaves an existing file of the new bucket as it is,
gives a missing one the header line as its only content, and touches no other
file; an event in the current bucket changes nothing. No row of a log is
written as the header line or read back as the header. Hence, over every
sequence of bucket switches, cache updates and flushes from the start of the
program (also a restart) on any files: a file that existed before only gains
lines of logs, and a file that did not exist is still missing or is the header
line followed by lines of logs, which `csv.Reader` reads as the header
followed by the rows of these logs. -/
theorem header_once (fs0 : FS) (ops : List Op) (p : String) (s : State) (ts : Time) :
    header = ["Timestamp", "Direction", "Size(Bytes)", "IP", "Port"]
      ∧ csvLine header = "Timestamp,Direction,Size(Bytes),IP,Port\n".data
      ∧ (formatMinute ts ≠ s.currentMinute →
          (ensureBucket s ts).fs (bucketPath (formatMinute ts))
              = (match s.fs (bucketPath (formatMinute ts)) with
                  | none => some "Timestamp,Direction,Size(Bytes),IP,Port\n".data
                  | some content => some content)
            ∧ ∀ q, q ≠ bucketPath (formatMinute ts) → (ensureBucket s ts).fs q = s.fs q)
      ∧ (formatMinute ts = s.currentMinute → ensureBucket s ts = s)
      ∧ (∀ log, csvLine (logRow log) ≠ "Timestamp,Direction,Size(Bytes),IP,Port\n".data
          ∧ (logRow log).map readBack ≠ ["Timestamp", "Direction", "Size(Bytes)", "IP", "Port"])
      ∧ (∀ content0, fs0 p = some content0 →
          ∃ logs : List PacketLog,
            (run (initState fs0) ops).fs p = some (content0 ++ csvLines (logs.map logRow)))
      ∧ (fs0 p = none →
          (run (initState fs0) ops).fs p = none
            ∨ ∃ logs : List PacketLog,
                (run (initState fs0) ops).fs p
                    = some ("Timestamp,Direction,Size(Bytes),IP,Port\n".data
                        ++ csvLines (logs.map logRow))
                  ∧ ReadAll ("Timestamp,Direction,Size(Bytes),IP,Port\n".data
                        ++ csvLines (logs.map logRow))
                    = some (["Timestamp", "Direction", "Size(Bytes)", "IP", "Port"]
                        :: logs.map (fun log => (logRow log).map readBack))) := by
  have hg := run_grows ops p (initState fs0) (by intro w hw; cases hw)
  refine ⟨rfl, csvLine_header, ?_, ensureBucket_same s ts, ?_, ?_, ?_⟩
  · intro h
    obtain ⟨_, _, _, _, _, hfs, hother⟩ := ensureBucket_open s ts h
    refine ⟨?_, hother⟩
    rw [hfs, csvLine_header]
    cases s.fs (bucketPath (formatMinute ts)) <;> rfl
  · intro log
    refine ⟨?_, logRow_readBack_ne_header log⟩
    rw [← csvLine_header]
    exact csvLine_logRow_ne_header log
  · intro content0 h0
    have h1 : (initState fs0).fs p = some content0 := h0
    rw [h1] at hg
    exact hg
  · intro h0
    have h1 : (initState fs0).fs p = none := h0
    rw [h1] at hg
    rcases hg with hg | ⟨logs, hg⟩
    · exact Or.inl hg
    · refine Or.inr ⟨logs, ?_, ?_⟩
      · rw [hg, ← csvLine_header]
        rfl
      · have hread := ReadAll_csvLines header (logs.map logRow) (by decide)
          (by
            intro r hr
            obtain ⟨log, _, rfl⟩ := List.mem_map.mp hr
            rfl)
        have e : csvLines (header :: logs.map logRow)
            = "Timestamp,Direction,Size(Bytes),IP,Port\n".data
              ++ csvLines (logs.map logRow) := by
          rw [← csvLine_header]
          rfl
        rw [e] at hread
        rw [hread, List.map_cons, header_readBack, List.map_map]
        rfl

/-! ## Claim on shutdown -/

/-- C6 (amended). After one or more packet events from the start of the program
(each classified, its bucket ensured, its size recorded; no periodic flush), the
writer is open on the active bucket file, the one of the last event's hour, and
the cache is not empty; that file is as it was before the run, or the header
line when it did not exist. The shutdown handler then empties the cache, appends
to the active bucket file what `csv.Writer` writes for one row per key held,
with the accumulated `SizeSum`, and its outcome is that of one call of
`GenerateSummary` on the file so flushed. That call prints a report when the
active bucket file did not exist before the run (the rotator created it) or was
what `csv.Writer` writes for one or more records of five fields. -/
theorem shutdown_flushes_and_reports (fs0 : FS) (localAddr : String) (others : List String)
    (events : List (Packet × Time)) (now : Time) (hne : events ≠ []) :
    ∃ s, runPackets (initState fs0) (localAddr :: others) events = some s
      ∧ s.writer = some s.logPath
      ∧ s.logPath = bucketPath (formatMinute (events.getLast hne).1.Timestamp)
      ∧ s.cache ≠ []
      ∧ s.fs s.logPath
          = (match fs0 s.logPath with
              | none => some "Timestamp,Direction,Size(Bytes),IP,Port\n".data
              | some content => some content)
      ∧ (shutdown s now).1.cache = []
      ∧ (shutdown s now).1.fs s.logPath
          = some ((s.fs s.logPath).getD [] ++ csvLines (s.cache.map (fun ke =>
              [formatTimestamp now, ke.1.Direction, Itoa ke.2.SizeSum, ke.1.IP, ke.1.Port])))
      ∧ (shutdown s now).2 = GenerateSummary (shutdown s now).1.fs s.logPath
      ∧ ((fs0 s.logPath = none
            ∨ ∃ r0, fs0 s.logPath = some (csvLines r0) ∧ r0 ≠ []
                ∧ ∀ row ∈ r0, row.length = 5) →
          ∃ r, (shutdown s now).2 = SummaryOutcome.report r
            ∧ printed (shutdown s now).2 = [r]) := by
  obtain ⟨s, hrun, hfs, hw, hex, hc, hpath⟩ := runPackets_init fs0 localAddr others events hne
  obtain ⟨h1, h2, h3⟩ := shutdown_spec s now hw hc
  have hrowsEq : (flushLogs s.cache (formatTimestamp now)).map logRow
      = s.cache.map (fun ke =>
          [formatTimestamp now, ke.1.Direction, Itoa ke.2.SizeSum, ke.1.IP, ke.1.Port]) := by
    simp [flushLogs, logRow, Function.comp_def]
  have hrows : (flushLogs s.cache (formatTimestamp now)).map logRow ≠ [] := by
    simpa [flushLogs] using hc
  have hlen : ∀ row ∈ (flushLogs s.cache (formatTimestamp now)).map logRow, row.length = 5 := by
    intro row hrow
    obtain ⟨log, _, rfl⟩ := List.mem_map.mp hrow
    rfl
  have hnew : fs0 s.logPath = none → s.fs s.logPath = some (csvLine header) := by
    intro h0
    rcases hfs s.logPath with h | ⟨_, h⟩
    · rw [h0] at h
      exact absurd h hex
    · exact h
  have hold : ∀ content, fs0 s.logPath = some content → s.fs s.logPath = some content := by
    intro content h0
    rcases hfs s.logPath with h | ⟨h, _⟩
    · rw [h, h0]
    · rw [h0] at h
      cases h
  refine ⟨s, hrun, hw, hpath, hc, ?_, h1, ?_, h3, ?_⟩
  · cases h0 : fs0 s.logPath with
    | none => rw [hnew h0, csvLine_header]
    | some content => rw [hold content h0]
  · rw [h2, hrowsEq]
  · intro hpre
    have hreport : ∃ r, GenerateSummary (shutdown s now).1.fs s.logPath
        = SummaryOutcome.report r := by
      rcases hpre with h0 | ⟨r0, h0, hr0, hlen0⟩
      · rw [hnew h0] at h2
        obtain ⟨r, hr, _⟩ := GenerateSummary_csvLines _ _ header
          ((flushLogs s.cache (formatTimestamp now)).map logRow) h2 hrows rfl hlen
        exact ⟨r, hr⟩
      · rw [hold _ h0] at h2
        cases r0 with
        | nil => exact absurd rfl hr0
        | cons first rest0 =>
          have h4 : (shutdown s now).1.fs s.logPath
              = some (csvLines (first :: (rest0
                  ++ (flushLogs s.cache (formatTimestamp now)).map logRow))) := by
            rw [h2, ← List.cons_append, csvLines_append]
            rfl
          obtain ⟨r, hr, _⟩ := GenerateSummary_csvLines _ _ first
            (rest0 ++ (flushLogs s.cache (formatTimestamp now)).map logRow) h4
            (by simp [hrows]) (hlen0 first (List.mem_cons_self _ _))
            (by
              intro row hrow
              rcases List.mem_append.mp hrow with h | h
              · exact hlen0 row (List.mem_cons_of_mem _ h)
              · exact hlen row h)
          exact ⟨r, hr⟩
    obtain ⟨r, hr⟩ := hreport
    rw [h3, hr]
    exact ⟨r, rfl, rfl⟩

/-- C6, an instance: one upload of 100 bytes on files without the bucket file,
then shutdown: the cache is emptied, the bucket file holds the header line and
the line of the upload, and the report of 100 bytes uploaded to one IP is
printed. -/
theorem shutdown_flushes_and_reports_witness :
    ([(({ Timestamp := ⟨2024, 3, 5, 14, 59, 59⟩, Length := 100,
          NetworkLayer := some ("10.0.0.1", "1.1.1.1"),
          TransportLayer := some ("5000", "443") } : Packet),
        (⟨2024, 3, 5, 14, 59, 59⟩ : Time))] ≠ [])
      ∧ (runPackets (initState (fun _ => none)) ["10.0.0.1"]
            [({ Timestamp := ⟨2024, 3, 5, 14, 59, 59⟩, Length := 100,
                NetworkLayer := some ("10.0.0.1", "1.1.1.1"),
                TransportLayer := some ("5000", "443") }, ⟨2024, 3, 5, 14, 59, 59⟩)]).map
          (fun s => (printed (shutdown s ⟨2024, 3, 5, 15, 0, 1⟩).2,
            (shutdown s ⟨2024, 3, 5, 15, 0, 1⟩).1.fs "logs/results-2024-03-05-14.csv"))
          = some ([{ uploadTotal := 100, downloadTotal := 0, ipCounter := [("1.1.1.1", 1)] }],
              some ("Timestamp,Direction,Size(Bytes),IP,Port\n"
                ++ "2024/03/05 15:00:01,Upload,100,1.1.1.1,443\n").data)
      ∧ ∃ s, runPackets (initState (fun _ => none)) ["10.0.0.1"]
            [({ Timestamp := ⟨2024, 3, 5, 14, 59, 59⟩, Length := 100,
                NetworkLayer := some ("10.0.0.1", "1.1.1.1"),
                TransportLayer := some ("5000", "443") }, ⟨2024, 3, 5, 14, 59, 59⟩)]
            = some s
          ∧ (shutdown s ⟨2024, 3, 5, 15, 0, 1⟩).1.cache = []
          ∧ ∃ r, (shutdown s ⟨2024, 3, 5, 15, 0, 1⟩).2 = SummaryOutcome.report r
              ∧ printed (shutdown s ⟨2024, 3, 5, 15, 0, 1⟩).2 = [r] := by
  refine ⟨by simp, by decide, ?_⟩
  obtain ⟨s, h1, _, _, _, _, h5, _, _, h8⟩ := shutdown_flushes_and_reports (fun _ => none)
    "10.0.0.1" []
    [({ Timestamp := ⟨2024, 3, 5, 14, 59, 59⟩, Length := 100,
        NetworkLayer := some ("10.0.0.1", "1.1.1.1"),
        TransportLayer := some ("5000", "443") }, ⟨2024, 3, 5, 14, 59, 59⟩)]
    ⟨2024, 3, 5, 15, 0, 1⟩ (by simp)
  exact ⟨s, h1, h5, h8 (Or.inl rfl)⟩

/-- C6 as stated fails when the active bucket file existed before the run as an
empty file: after one packet event the shutdown handler writes the row of the
one cache entry, and `GenerateSummary` finds fewer than two records and prints
no report. It fails too when that file held the header without a final line
feed: the row of the cache entry continues the line of the header, and
`GenerateSummary` again finds one record only. -/
theorem shutdown_without_report :
    (runPackets
        (initState (fun p => if p = "logs/results-2024-03-05-14.csv" then some [] else none))
        ["10.0.0.1"]
        [({ Timestamp := ⟨2024, 3, 5, 14, 59, 59⟩, Length := 100,
            NetworkLayer := some ("10.0.0.1", "1.1.1.1"),
            TransportLayer := some ("5000", "443") }, ⟨2024, 3, 5, 14, 59, 59⟩)]).map
      (fun s => ((shutdown s ⟨2024, 3, 5, 15, 0, 1⟩).2,
        printed (shutdown s ⟨2024, 3, 5, 15, 0, 1⟩).2,
        (shutdown s ⟨2024, 3, 5, 15, 0, 1⟩).1.fs "logs/results-2024-03-05-14.csv"))
      = some (SummaryOutcome.insufficient, [],
          some "2024/03/05 15:00:01,Upload,100,1.1.1.1,443\n".data)
    ∧ (runPackets
        (initState (fun p => if p = "logs/results-2024-03-05-14.csv"
          then some "Timestamp,Direction,Size(Bytes),IP,Port".data else none))
        ["10.0.0.1"]
        [({ Timestamp := ⟨2024, 3, 5, 14, 59, 59⟩, Length := 100,
            NetworkLayer := some ("10.0.0.1", "1.1.1.1"),
            TransportLayer := some ("5000", "443") }, ⟨2024, 3, 5, 14, 59, 59⟩)]).map
      (fun s => ((shutdown s ⟨2024, 3, 5, 15, 0, 1⟩).2,
        printed (shutdown s ⟨2024, 3, 5, 15, 0, 1⟩).2,
        (shutdown s ⟨2024, 3, 5, 15, 0, 1⟩).1.fs "logs/results-2024-03-05-14.csv"))
      = some (SummaryOutcome.insufficient, [],
          some ("Timestamp,Direction,Size(Bytes),IP,Port"
            ++ "2024/03/05 15:00:01,Upload,100,1.1.1.1,443\n").data) := by
  refine ⟨by decide, by decide⟩

/-! ## Instances -/

/-- C2, an instance: 100 and 50 bytes recorded under two keys, a drain, then 7
more bytes: 150 drained, 7 held, 157 recorded. -/
theorem drains_account_for_records_witness :
    drainedSum (runCache "logs/results-2024-03-05-14.csv" (fun _ => none)
        [CacheStep.record { Direction := "Upload", IP := "1.1.1.1", Port := "443" }
            100 ⟨2024, 3, 5, 14, 59, 58⟩,
          CacheStep.record { Direction := "Download", IP := "2.2.2.2", Port := "80" }
            50 ⟨2024, 3, 5, 14, 59, 59⟩,
          CacheStep.drain ⟨2024, 3, 5, 15, 0, 1⟩,
          CacheStep.record { Direction := "Upload", IP := "1.1.1.1", Port := "443" }
            7 ⟨2024, 3, 5, 15, 0, 2⟩]) = 150
      ∧ heldSum (runCache "logs/results-2024-03-05-14.csv" (fun _ => none)
        [CacheStep.record { Direction := "Upload", IP := "1.1.1.1", Port := "443" }
            100 ⟨2024, 3, 5, 14, 59, 58⟩,
          CacheStep.record { Direction := "Download", IP := "2.2.2.2", Port := "80" }
            50 ⟨2024, 3, 5, 14, 59, 59⟩,
          CacheStep.drain ⟨2024, 3, 5, 15, 0, 1⟩,
          CacheStep.record { Direction := "Upload", IP := "1.1.1.1", Port := "443" }
            7 ⟨2024, 3, 5, 15, 0, 2⟩]).cache = 7
      ∧ drainedSum (runCache "logs/results-2024-03-05-14.csv" (fun _ => none)
        [CacheStep.record { Direction := "Upload", IP := "1.1.1.1", Port := "443" }
            100 ⟨2024, 3, 5, 14, 59, 58⟩,
          CacheStep.record { Direction := "Download", IP := "2.2.2.2", Port := "80" }
            50 ⟨2024, 3, 5, 14, 59, 59⟩,
          CacheStep.drain ⟨2024, 3, 5, 15, 0, 1⟩,
          CacheStep.record { Direction := "Upload", IP := "1.1.1.1", Port := "443" }
            7 ⟨2024, 3, 5, 15, 0, 2⟩])
        + heldSum (runCache "logs/results-2024-03-05-14.csv" (fun _ => none)
        [CacheStep.record { Direction := "Upload", IP := "1.1.1.1", Port := "443" }
            100 ⟨2024, 3, 5, 14, 59, 58⟩,
          CacheStep.record { Direction := "Download", IP := "2.2.2.2", Port := "80" }
            50 ⟨2024, 3, 5, 14, 59, 59⟩,
          CacheStep.drain ⟨2024, 3, 5, 15, 0, 1⟩,
          CacheStep.record { Direction := "Upload", IP := "1.1.1.1", Port := "443" }
            7 ⟨2024, 3, 5, 15, 0, 2⟩]).cache
        = (stepSizes
        [CacheStep.record { Direction := "Upload", IP := "1.1.1.1", Port := "443" }
            100 ⟨2024, 3, 5, 14, 59, 58⟩,
          CacheStep.record { Direction := "Download", IP := "2.2.2.2", Port := "80" }
            50 ⟨2024, 3, 5, 14, 59, 59⟩,
          CacheStep.drain ⟨2024, 3, 5, 15, 0, 1⟩,
          CacheStep.record { Direction := "Upload", IP := "1.1.1.1", Port := "443" }
            7 ⟨2024, 3, 5, 15, 0, 2⟩]).sum :=
  ⟨by decide, by decide,
    (drains_account_for_records "logs/results-2024-03-05-14.csv" (fun _ => none)
      [CacheStep.record { Direction := "Upload", IP := "1.1.1.1", Port := "443" }
          100 ⟨2024, 3, 5, 14, 59, 58⟩,
        CacheStep.record { Direction := "Download", IP := "2.2.2.2", Port := "80" }
          50 ⟨2024, 3, 5, 14, 59, 59⟩,
        CacheStep.drain ⟨2024, 3, 5, 15, 0, 1⟩,
        CacheStep.record { Direction := "Upload", IP := "1.1.1.1", Port := "443" }
          7 ⟨2024, 3, 5, 15, 0, 2⟩]).2.1 (by decide) (by decide)⟩

/-- C3, instances: a packet sent from the local address is an upload to its
destination, one from another address a download from its source, one without
transport layer unknown. -/
theorem classify_flow_witness :
    classify
        { Timestamp := ⟨2024, 3, 5, 14, 59, 59⟩, Length := 100,
          NetworkLayer := some ("10.0.0.1", "1.1.1.1"),
          TransportLayer := some ("5000", "443") } ["10.0.0.1"]
      = some { Direction := "Upload", IP := "1.1.1.1", Port := "443" }
    ∧ classify
        { Timestamp := ⟨2024, 3, 5, 14, 59, 59⟩, Length := 100,
          NetworkLayer := some ("1.1.1.1", "10.0.0.1"),
          TransportLayer := some ("443", "5000") } ["10.0.0.1"]
      = some { Direction := "Download", IP := "1.1.1.1", Port := "443" }
    ∧ classify
        { Timestamp := ⟨2024, 3, 5, 14, 59, 59⟩, Length := 100,
          NetworkLayer := some ("1.1.1.1", "10.0.0.1"),
          TransportLayer := none } ["10.0.0.1"]
      = some { Direction := "unknown", IP := "unknown", Port := "unknown" } :=
  ⟨by decide, by decide,
    (classify_flow
      { Timestamp := ⟨2024, 3, 5, 14, 59, 59⟩, Length := 100,
        NetworkLayer := some ("1.1.1.1", "10.0.0.1"),
        TransportLayer := none } "10.0.0.1" []).1 rfl⟩

/-- C5, an instance: from no files, two events and flushes in hour 14 and one
event in hour 15 leave the header line once, as first line, in each of the two
files; a restart in hour 15 with one more flush adds a line and no header. -/
theorem header_once_witness :
    (run (initState (fun _ => none))
        [Op.ensure ⟨2024, 3, 5, 14, 59, 58⟩,
          Op.record { Direction := "Upload", IP := "1.1.1.1", Port := "443" } 100
            ⟨2024, 3, 5, 14, 59, 58⟩,
          Op.flush ⟨2024, 3, 5, 14, 59, 58⟩,
          Op.ensure ⟨2024, 3, 5, 14, 59, 59⟩,
          Op.record { Direction := "Upload", IP := "1.1.1.1", Port := "443" } 50
            ⟨2024, 3, 5, 14, 59, 59⟩,
          Op.flush ⟨2024, 3, 5, 14, 59, 59⟩,
          Op.ensure ⟨2024, 3, 5, 15, 0, 1⟩]).fs "logs/results-2024-03-05-14.csv"
      = some ("Timestamp,Direction,Size(Bytes),IP,Port\n"
          ++ "2024/03/05 14:59:58,Upload,100,1.1.1.1,443\n"
          ++ "2024/03/05 14:59:59,Upload,50,1.1.1.1,443\n").data
    ∧ (run (initState (fun _ => none))
        [Op.ensure ⟨2024, 3, 5, 14, 59, 58⟩,
          Op.record { Direction := "Upload", IP := "1.1.1.1", Port := "443" } 100
            ⟨2024, 3, 5, 14, 59, 58⟩,
          Op.flush ⟨2024, 3, 5, 14, 59, 58⟩,
          Op.ensure ⟨2024, 3, 5, 14, 59, 59⟩,
          Op.record { Direction := "Upload", IP := "1.1.1.1", Port := "443" } 50
            ⟨2024, 3, 5, 14, 59, 59⟩,
          Op.flush ⟨2024, 3, 5, 14, 59, 59⟩,
          Op.ensure ⟨2024, 3, 5, 15, 0, 1⟩]).fs "logs/results-2024-03-05-15.csv"
      = some "Timestamp,Direction,Size(Bytes),IP,Port\n".data
    ∧ (run (initState
          (fun p => if p = "logs/results-2024-03-05-15.csv"
            then some "Timestamp,Direction,Size(Bytes),IP,Port\n".data else none))
        [Op.ensure ⟨2024, 3, 5, 15, 0, 2⟩,
          Op.record { Direction := "Upload", IP := "1.1.1.1", Port := "443" } 7
            ⟨2024, 3, 5, 15, 0, 2⟩,
          Op.flush ⟨2024, 3, 5, 15, 0, 3⟩]).fs "logs/results-2024-03-05-15.csv"
      = some ("Timestamp,Direction,Size(Bytes),IP,Port\n"
          ++ "2024/03/05 15:00:03,Upload,7,1.1.1.1,443\n").data
    ∧ ReadAll ("Timestamp,Direction,Size(Bytes),IP,Port\n"
          ++ "2024/03/05 15:00:03,Upload,7,1.1.1.1,443\n").data
      = some [["Timestamp", "Direction", "Size(Bytes)", "IP", "Port"],
          ["2024/03/05 15:00:03", "Upload", "7", "1.1.1.1", "443"]]
    ∧ (ensureBucket (initState (fun _ => none)) ⟨2024, 3, 5, 15, 0, 1⟩).fs
        (bucketPath (formatMinute ⟨2024, 3, 5, 15, 0, 1⟩))
      = some "Timestamp,Direction,Size(Bytes),IP,Port\n".data :=
  ⟨by decide, by decide, by decide, by decide,
    ((header_once (fun _ => none) [] "" (initState (fun _ => none))
      ⟨2024, 3, 5, 15, 0, 1⟩).2.2.1 (by decide)).1⟩

/-- C7, the instance of the specification: 14:59:59 and 15:00:01 of one day. -/
theorem bucket_label_witness :
    formatMinute ⟨2024, 3, 5, 14, 59, 59⟩ = "2024-03-05-14"
      ∧ formatMinute ⟨2024, 3, 5, 15, 0, 1⟩ = "2024-03-05-15"
      ∧ bucketPath (formatMinute ⟨2024, 3, 5, 14, 59, 59⟩) = "logs/results-2024-03-05-14.csv"
      ∧ bucketPath (formatMinute ⟨2024, 3, 5, 15, 0, 1⟩) = "logs/results-2024-03-05-15.csv"
      ∧ (formatMinute ⟨2024, 3, 5, 14, 0, 0⟩ = formatMinute ⟨2024, 3, 5, 14, 59, 59⟩
          ↔ (2024 : Int) = 2024 ∧ (3 : Fin 13) = 3 ∧ (5 : Fin 32) = 5 ∧ (14 : Fin 24) = 14) :=
  ⟨by decide, by decide, by decide, by decide,
    (bucket_label ⟨2024, 3, 5, 14, 0, 0⟩ ⟨2024, 3, 5, 14, 59, 59⟩).2.2.2.1⟩

/-- C8, an instance: two entries last seen at different times are flushed as two
lines that carry the one flush time; fields with a comma, a quote, a line
break or a leading space, and the field of a backslash and a dot, are written
in quotes. -/
theorem flushCache_rows_witness :
    (flushCache
        [({ Direction := "Upload", IP := "1.1.1.1", Port := "443" },
            { SizeSum := 150, LastSeen := ⟨2024, 3, 5, 14, 59, 58⟩ }),
          ({ Direction := "Download", IP := "2.2.2.2", Port := "80" },
            { SizeSum := 20, LastSeen := ⟨2024, 3, 5, 14, 59, 59⟩ })]
        (some "logs/results-2024-03-05-14.csv") ⟨2024, 3, 5, 15, 0, 1⟩
        (fun p => if p = "logs/results-2024-03-05-14.csv"
          then some "Timestamp,Direction,Size(Bytes),IP,Port\n".data else none)).2
      "logs/results-2024-03-05-14.csv"
      = some ("Timestamp,Direction,Size(Bytes),IP,Port\n"
          ++ "2024/03/05 15:00:01,Upload,150,1.1.1.1,443\n"
          ++ "2024/03/05 15:00:01,Download,20,2.2.2.2,80\n").data
    ∧ (flushCache
        [({ Direction := "Upload", IP := "1,1", Port := " 443" },
            { SizeSum := 150, LastSeen := ⟨2024, 3, 5, 14, 59, 58⟩ }),
          ({ Direction := "a\"b", IP := "x\r\ny", Port := "" },
            { SizeSum := -20, LastSeen := ⟨2024, 3, 5, 14, 59, 59⟩ }),
          ({ Direction := String.mk [Char.ofNat 8202], IP := String.mk [Char.ofNat 8203],
              Port := String.mk [Char.ofNat 92, '.'] },
            { SizeSum := 0, LastSeen := ⟨2024, 3, 5, 14, 59, 59⟩ })]
        (some "logs/results-2024-03-05-14.csv") ⟨2024, 3, 5, 15, 0, 1⟩
        (fun _ => none)).2 "logs/results-2024-03-05-14.csv"
      = some ("2024/03/05 15:00:01,Upload,150,\"1,1\",\" 443\"\n".data
          ++ "2024/03/05 15:00:01,\"a\"\"b\",-20,\"x\r\ny\",\n".data
          ++ "2024/03/05 15:00:01,".data
          ++ ['"', Char.ofNat 8202, '"', ',', '0', ',', Char.ofNat 8203, ',',
            '"', Char.ofNat 92, '.', '"', '\n'])
    ∧ (flushCache
        [({ Direction := "Upload", IP := "1.1.1.1", Port := "443" },
            { SizeSum := 150, LastSeen := ⟨2024, 3, 5, 14, 59, 58⟩ }),
          ({ Direction := "Download", IP := "2.2.2.2", Port := "80" },
            { SizeSum := 20, LastSeen := ⟨2024, 3, 5, 14, 59, 59⟩ })]
        (some "logs/results-2024-03-05-14.csv") ⟨2024, 3, 5, 15, 0, 1⟩
        (fun p => if p = "logs/results-2024-03-05-14.csv"
          then some "Timestamp,Direction,Size(Bytes),IP,Port\n".data else none)).1
      = [] :=
  ⟨by decide, by decide,
    (flushCache_rows _ "logs/results-2024-03-05-14.csv" ⟨2024, 3, 5, 15, 0, 1⟩ _).1⟩

/-- C9, an instance: a flush before any bucket is open keeps the entry. -/
theorem flushCache_nil_writer_witness :
    flushCache
        [({ Direction := "Upload", IP := "1.1.1.1", Port := "443" },
            { SizeSum := 150, LastSeen := ⟨2024, 3, 5, 14, 59, 58⟩ })]
        none ⟨2024, 3, 5, 15, 0, 1⟩ (fun _ => none)
      = ([({ Direction := "Upload", IP := "1.1.1.1", Port := "443" },
            { SizeSum := 150, LastSeen := ⟨2024, 3, 5, 14, 59, 58⟩ })], fun _ => none) :=
  flushCache_nil_writer _ _ _

end Sniffer
